import Mathlib

/-!
The x-ui inbound service: inbound / client-counter consistency.

A shallow embedding of `web/service/inbound.go` and proofs about it.

* The database is a value of type `Store`: the `inbounds` table and the
  `client_traffics` table, each a list of rows in primary-key order, together
  with the column constraints declared by the row types (those declarations
  are not part of the service file, so they are carried as `Schema` flags).
* Every service method is a function from a store to a result and a store.
  Store calls fail only for the reasons visible in the model (no matching row,
  a declared uniqueness constraint); connection failures are not modelled.
* Integer columns (`int`, `int64`) are `Int`. The additions of `AddTraffic`
  and `AddClientTraffic` and the comparisons of the sweep are evaluated by the
  store, and are taken to be exact integer arithmetic.
* `json.Unmarshal` is the standard library decoder; `unmarshalSettings` below
  models what it leaves in a `map[string][]model.Client` destination, for a
  settings text that is valid UTF-8. Numbers decoded into `int64` fields are
  range-checked as the library does.
* Go slices are lists; a nil slice and an empty slice are both `[]` (the
  service only takes their length and ranges over them).
-/

set_option autoImplicit false

namespace XUI

/-! ## JSON text -/

/-- JSON values as produced by the scanner; numbers keep their literal. -/
inductive Json where
  | null
  | bool (b : Bool)
  | num (lit : List Char)
  | str (s : String)
  | arr (xs : List Json)
  | obj (kvs : List (String × Json))

def isSpace (c : Char) : Bool :=
  c == ' ' || c == '\t' || c == '\r' || c == '\n'

def skipSpace : List Char → List Char
  | [] => []
  | c :: cs => if isSpace c then skipSpace cs else c :: cs

def isDigit (c : Char) : Bool := 48 ≤ c.toNat && c.toNat ≤ 57

def spanDigits : List Char → List Char × List Char
  | [] => ([], [])
  | c :: cs =>
    if isDigit c then ((spanDigits cs).1.cons c, (spanDigits cs).2) else ([], c :: cs)

def scanExp (lit cs : List Char) : Option (List Char × List Char) :=
  match cs with
  | [] => some (lit, [])
  | c :: rest =>
    if c = 'e' ∨ c = 'E' then
      let signed : List Char × List Char :=
        match rest with
        | [] => ([], [])
        | s :: rest2 => if s = '+' ∨ s = '-' then ([s], rest2) else ([], s :: rest2)
      let ds := spanDigits signed.2
      if ds.1.isEmpty then none else some (lit ++ c :: signed.1 ++ ds.1, ds.2)
    else some (lit, c :: rest)

def scanFrac (lit cs : List Char) : Option (List Char × List Char) :=
  match cs with
  | [] => some (lit, [])
  | c :: rest =>
    if c = '.' then
      let ds := spanDigits rest
      if ds.1.isEmpty then none else scanExp (lit ++ c :: ds.1) ds.2
    else scanExp lit (c :: rest)

def scanInt (sign cs : List Char) : Option (List Char × List Char) :=
  match cs with
  | [] => none
  | c :: rest =>
    if c = '0' then scanFrac (sign ++ [c]) rest
    else if isDigit c then
      let ds := spanDigits rest
      scanFrac (sign ++ c :: ds.1) ds.2
    else none

/-- Number literal: `-? (0 | [1-9][0-9]*) (. [0-9]+)? ([eE] [+-]? [0-9]+)?`. -/
def scanNumber (cs : List Char) : Option (List Char × List Char) :=
  match cs with
  | [] => none
  | c :: rest => if c = '-' then scanInt [c] rest else scanInt [] (c :: rest)

def hexVal (c : Char) : Option Nat :=
  let n := c.toNat
  if 48 ≤ n ∧ n ≤ 57 then some (n - 48)
  else if 97 ≤ n ∧ n ≤ 102 then some (n - 87)
  else if 65 ≤ n ∧ n ≤ 70 then some (n - 55)
  else none

/-- Four hex digits after a backslash-u, as in `getu4`. -/
def getu4 (cs : List Char) : Option Nat :=
  match cs with
  | b :: u :: h1 :: h2 :: h3 :: h4 :: _ =>
    if b = '\\' ∧ u = 'u' then
      match hexVal h1, hexVal h2, hexVal h3, hexVal h4 with
      | some a, some b, some c, some d => some (((a * 16 + b) * 16 + c) * 16 + d)
      | _, _, _, _ => none
    else none
  | _ => none

def simpleEscape (c : Char) : Option Char :=
  if c = '"' then some '"'
  else if c = '\\' then some '\\'
  else if c = '/' then some '/'
  else if c = 'b' then some (Char.ofNat 8)
  else if c = 'f' then some (Char.ofNat 12)
  else if c = 'n' then some '\n'
  else if c = 'r' then some '\r'
  else if c = 't' then some '\t'
  else none

def isSurrogate (r : Nat) : Bool := 0xd800 ≤ r && r < 0xe000

/-- Body of a string literal, after the opening quote. -/
def scanString : Nat → List Char → List Char → Option (String × List Char)
  | 0, _, _ => none
  | fuel + 1, acc, cs =>
    match cs with
    | [] => none
    | c :: rest =>
      if c = '"' then some (String.mk acc.reverse, rest)
      else if c = '\\' then
        match rest with
        | [] => none
        | e :: rest2 =>
          if e = 'u' then
            match getu4 (c :: rest) with
            | none => none
            | some rr =>
              let after := rest2.drop 4
              if isSurrogate rr then
                match getu4 after with
                | some rr1 =>
                  if rr < 0xdc00 ∧ 0xdc00 ≤ rr1 ∧ rr1 < 0xe000 then
                    scanString fuel
                      (Char.ofNat ((rr - 0xd800) * 1024 + (rr1 - 0xdc00) + 0x10000) :: acc)
                      (after.drop 6)
                  else scanString fuel (Char.ofNat 0xfffd :: acc) after
                | none => scanString fuel (Char.ofNat 0xfffd :: acc) after
              else scanString fuel (Char.ofNat rr :: acc) after
          else
            match simpleEscape e with
            | some ch => scanString fuel (ch :: acc) rest2
            | none => none
      else if c.toNat < 32 then none
      else scanString fuel (c :: acc) rest

def expectWord (p cs : List Char) : Option (List Char) :=
  if p.isPrefixOf cs then some (cs.drop p.length) else none

def maxNestingDepth : Nat := 10000

mutual

/-- One JSON value, leading white space allowed; returns the unread rest. -/
def parseValue : Nat → Nat → List Char → Option (Json × List Char)
  | 0, _, _ => none
  | fuel + 1, depth, cs =>
    match skipSpace cs with
    | [] => none
    | c :: rest =>
      if c = '{' then
        if maxNestingDepth < depth + 1 then none
        else
          match skipSpace rest with
          | [] => none
          | d :: rest2 =>
            if d = '}' then some (Json.obj [], rest2)
            else parseMembers fuel (depth + 1) (d :: rest2) []
      else if c = '[' then
        if maxNestingDepth < depth + 1 then none
        else
          match skipSpace rest with
          | [] => none
          | d :: rest2 =>
            if d = ']' then some (Json.arr [], rest2)
            else parseElems fuel (depth + 1) (d :: rest2) []
      else if c = '"' then
        match scanString (rest.length + 1) [] rest with
        | some (s, rest2) => some (Json.str s, rest2)
        | none => none
      else if c = 't' then (expectWord "rue".toList rest).map (fun r => (Json.bool true, r))
      else if c = 'f' then (expectWord "alse".toList rest).map (fun r => (Json.bool false, r))
      else if c = 'n' then (expectWord "ull".toList rest).map (fun r => (Json.null, r))
      else
        match scanNumber (c :: rest) with
        | some (lit, rest2) => some (Json.num lit, rest2)
        | none => none

/-- Array elements up to the closing bracket. -/
def parseElems : Nat → Nat → List Char → List Json → Option (Json × List Char)
  | 0, _, _, _ => none
  | fuel + 1, depth, cs, acc =>
    match parseValue fuel depth cs with
    | none => none
    | some (v, rest) =>
      match skipSpace rest with
      | [] => none
      | c :: rest2 =>
        if c = ',' then parseElems fuel depth rest2 (v :: acc)
        else if c = ']' then some (Json.arr (v :: acc).reverse, rest2)
        else none

/-- Object members up to the closing brace. -/
def parseMembers : Nat → Nat → List Char → List (String × Json) → Option (Json × List Char)
  | 0, _, _, _ => none
  | fuel + 1, depth, cs, acc =>
    match skipSpace cs with
    | [] => none
    | q :: rest =>
      if q = '"' then
        match scanString (rest.length + 1) [] rest with
        | none => none
        | some (k, rest2) =>
          match skipSpace rest2 with
          | [] => none
          | colon :: rest3 =>
            if colon = ':' then
              match parseValue fuel depth rest3 with
              | none => none
              | some (v, rest4) =>
                match skipSpace rest4 with
                | [] => none
                | c :: rest5 =>
                  if c = ',' then parseMembers fuel depth rest5 ((k, v) :: acc)
                  else if c = '}' then some (Json.obj ((k, v) :: acc).reverse, rest5)
                  else none
            else none
      else none

end

/-- A whole document: one value and nothing but white space after it. The
fuel is more than the scanner can use (see `parseValue_fuel`), so `none` always
means that the text is not well-formed. -/
def parseJson (text : String) : Option Json :=
  match parseValue (2 * text.length + 1) 0 text.toList with
  | none => none
  | some (v, rest) => if (skipSpace rest).isEmpty then some v else none

/-! ## Decoding a settings document -/

/-- Modelled from the spec: `model.Client` is declared outside the service
file; the spec's data model gives it the fields `Email`, `TotalGB` and
`ExpiryTime`, which are the only ones the service reads. -/
structure Client where
  Email : String
  TotalGB : Int
  ExpiryTime : Int
  deriving DecidableEq, Repr, Inhabited

def digitsValue (ds : List Char) : Nat :=
  ds.foldl (fun n c => n * 10 + (c.toNat - 48)) 0

/-- An `int64` field accepts a number literal only when it is an integer
literal in range (`strconv.ParseInt`); otherwise the field keeps its value. -/
def parseInt64 (lit : List Char) : Option Int :=
  match lit with
  | [] => none
  | c :: rest =>
    if c = '-' then
      if rest.all isDigit && !rest.isEmpty && decide (digitsValue rest ≤ 2 ^ 63) then
        some (-(digitsValue rest : Int))
      else none
    else if lit.all isDigit && decide (digitsValue lit < 2 ^ 63) then
      some (digitsValue lit : Int)
    else none

/-- Object keys select struct fields without regard to letter case. -/
def foldName (key : String) : List Char := key.toList.map Char.toLower

/-- One member of a client object stored into the struct; a value of the
wrong kind (and `null`) leaves the field as it was. -/
def setClientField (c : Client) (kv : String × Json) : Client :=
  if foldName kv.1 = "email".toList then
    match kv.2 with
    | Json.str s => { c with Email := s }
    | _ => c
  else if foldName kv.1 = "totalgb".toList then
    match kv.2 with
    | Json.num lit =>
      match parseInt64 lit with
      | some n => { c with TotalGB := n }
      | none => c
    | _ => c
  else if foldName kv.1 = "expirytime".toList then
    match kv.2 with
    | Json.num lit =>
      match parseInt64 lit with
      | some n => { c with ExpiryTime := n }
      | none => c
    | _ => c
  else c

def zeroClient : Client := { Email := "", TotalGB := 0, ExpiryTime := 0 }

def decodeClient (v : Json) : Client :=
  match v with
  | Json.obj kvs => kvs.foldl setClientField zeroClient
  | _ => zeroClient

/-- A `[]model.Client` destination: an array gives one client per element,
anything else leaves the nil slice (a nil and an empty slice are both `[]`). -/
def decodeClients (v : Json) : List Client :=
  match v with
  | Json.arr xs => xs.map decodeClient
  | _ => []

/-- A Go `map[string][]model.Client`, as its members in insertion order; a
later member with the same key overrides an earlier one. -/
abbrev ClientMap := List (String × List Client)

/-- Indexing the map: the zero value (nil slice) when the key is absent. -/
def mapGet (m : ClientMap) (key : String) : List Client :=
  match m.reverse.find? (fun e => e.1 = key) with
  | some e => e.2
  | none => []

/-- State of `settings` after
`settings := map[string][]model.Client{}; json.Unmarshal([]byte(text), &settings)`
with the returned error dropped, as both call sites do. `none` is the nil map.
A text that is not well-formed JSON is rejected before anything is stored, so
the map stays empty; the literal `null` sets the map to nil; a value of another
kind than object is a type mismatch and stores nothing. -/
def unmarshalSettings (text : String) : Option ClientMap :=
  match parseJson text with
  | none => some []
  | some Json.null => none
  | some (Json.obj kvs) => some (kvs.map (fun kv => (kv.1, decodeClients kv.2)))
  | some _ => some []

/-! ## Rows and store -/

/-- Modelled from the spec: `model.Inbound` is declared outside the service
file; fields as in the spec's data model plus the `user_id` column the
service queries. The preloaded `ClientStats` association is not a column. -/
structure Inbound where
  Id : Int
  UserId : Int
  Up : Int
  Down : Int
  Total : Int
  Remark : String
  Enable : Bool
  ExpiryTime : Int
  Listen : String
  Port : Int
  Protocol : String
  Settings : String
  StreamSettings : String
  Tag : String
  Sniffing : String
  deriving DecidableEq, Repr, Inhabited

/-- Modelled from the spec: `xray.ClientTraffic` is declared outside the
service file. The autoincrement key is implicit: rows are kept in key order. -/
structure ClientTraffic where
  InboundId : Int
  Enable : Bool
  Email : String
  Up : Int
  Down : Int
  ExpiryTime : Int
  Total : Int
  deriving DecidableEq, Repr, Inhabited

/-- Modelled from the spec: `xray.Traffic`, one usage delta keyed by tag. -/
structure Traffic where
  IsInbound : Bool
  Tag : String
  Up : Int
  Down : Int
  deriving DecidableEq, Repr, Inhabited

/-- Uniqueness constraints a table declaration may put on its columns. The
declarations are outside the service file, so every combination is covered. -/
structure Schema where
  uniquePort : Bool
  uniqueTag : Bool
  uniqueEmail : Bool
  deriving DecidableEq, Repr, Inhabited

structure Store where
  schema : Schema
  inbounds : List Inbound
  clientTraffics : List ClientTraffic
  deriving DecidableEq, Repr, Inhabited

inductive Err where
  /-- The error `common.NewError("Port already exists:", port)` -/
  | portExists (port : Int)
  /-- The error `common.NewError("Duplicate email:", email)` -/
  | duplicateEmail (email : String)
  /-- The error `fmt.Errorf("setting is null")` -/
  | settingIsNull
  /-- The error `gorm.ErrRecordNotFound` -/
  | recordNotFound
  /-- The store refused a write that breaks a declared uniqueness constraint -/
  | constraintFailed
  /-- A run-time panic: index out of range -/
  | indexOutOfRange
  deriving DecidableEq, Repr, Inhabited

instance exceptDecEq {ε α : Type} [DecidableEq ε] [DecidableEq α] :
    DecidableEq (Except ε α) := fun x y =>
  match x, y with
  | Except.ok a, Except.ok b =>
    if h : a = b then isTrue (congrArg Except.ok h)
    else isFalse (fun h2 => h (Except.ok.inj h2))
  | Except.error a, Except.error b =>
    if h : a = b then isTrue (congrArg Except.error h)
    else isFalse (fun h2 => h (Except.error.inj h2))
  | Except.ok _, Except.error _ => isFalse (fun h => Except.noConfusion h)
  | Except.error _, Except.ok _ => isFalse (fun h => Except.noConfusion h)

/-- The protocol names behind `model.VMess`, `model.VLESS` and `model.Trojan`. -/
def VMess : String := "vmess"

def VLESS : String := "vless"

def Trojan : String := "trojan"

/-! ## Store primitives -/

/-- Key given to a row inserted with a zero key: one past the largest in use. -/
def freshId (rows : List Inbound) : Int :=
  rows.foldl (fun m r => max m r.Id) 0 + 1

/-- Some other row already holds a value the schema declares unique. -/
def conflicts (sc : Schema) (rows : List Inbound) (x : Inbound) : Bool :=
  rows.any (fun r => decide (r.Id ≠ x.Id) &&
    ((sc.uniquePort && decide (r.Port = x.Port)) || (sc.uniqueTag && decide (r.Tag = x.Tag))))

/-- The record as the store will hold it: a zero key is replaced by a fresh one. -/
def assignKey (rows : List Inbound) (x : Inbound) : Inbound :=
  if x.Id = 0 then { x with Id := freshId rows } else x

/-- The call `db.Save(inbound)`: a zero key inserts under a fresh key; a non-zero key
rewrites every column of the row with that key, or inserts when there is none.
Returns the record as it stands after the call (its key filled in). -/
def Save (st : Store) (x : Inbound) : Except Err (Inbound × Store) :=
  let y : Inbound := assignKey st.inbounds x
  if conflicts st.schema st.inbounds y then Except.error Err.constraintFailed
  else if st.inbounds.any (fun r => decide (r.Id = y.Id)) then
    Except.ok (y, { st with inbounds := st.inbounds.map (fun r => if r.Id = y.Id then y else r) })
  else Except.ok (y, { st with inbounds := st.inbounds ++ [y] })

/-- The call `db.Create(&clientTraffic)` on the counter table. -/
def createClientTraffic (st : Store) (row : ClientTraffic) : Option Err × Store :=
  if st.schema.uniqueEmail && st.clientTraffics.any (fun r => decide (r.Email = row.Email)) then
    (some Err.constraintFailed, st)
  else (none, { st with clientTraffics := st.clientTraffics ++ [row] })

/-! ## The service -/

def checkPortExist (st : Store) (port : Int) (ignoreId : Int) : Bool :=
  decide (0 < st.inbounds.countP
    (fun r => decide (r.Port = port) && (!decide (0 < ignoreId) || decide (r.Id ≠ ignoreId))))

def getClients (inbound : Inbound) : Except Err (List Client) :=
  match unmarshalSettings inbound.Settings with
  | none => Except.error Err.settingIsNull
  | some settings => Except.ok (mapGet settings "clients")

/-- The loop of `checkEmailsExist` over the selected inbounds. -/
def scanEmails (emails : List String) : List Inbound → Except Err String
  | [] => Except.ok ""
  | inbound :: rest =>
    match getClients inbound with
    | Except.error e => Except.error e
    | Except.ok clients =>
      match clients.find? (fun client => decide (client.Email ∈ emails)) with
      | some client => Except.ok client.Email
      | none => scanEmails emails rest

/-- The set `emails` is the list of its members. -/
def checkEmailsExist (st : Store) (emails : List String) (ignoreId : Int) :
    Except Err String :=
  scanEmails emails
    (st.inbounds.filter (fun r =>
      (decide (r.Protocol = VMess) || decide (r.Protocol = VLESS) || decide (r.Protocol = Trojan))
        && (!decide (0 < ignoreId) || decide (r.Id ≠ ignoreId))))

/-- The first loop of `checkEmailExistForInbound`: `Sum.inl` is the early
return of a repeated email, `Sum.inr` the set built when the loop finishes. -/
def collectEmails : List Client → List String → String ⊕ List String
  | [], emails => Sum.inr emails
  | client :: rest, emails =>
    if client.Email ≠ "" then
      if client.Email ∈ emails then Sum.inl client.Email
      else collectEmails rest (client.Email :: emails)
    else collectEmails rest emails

def checkEmailExistForInbound (st : Store) (inbound : Inbound) : Except Err String :=
  match getClients inbound with
  | Except.error e => Except.error e
  | Except.ok clients =>
    match collectEmails clients [] with
    | Sum.inl email => Except.ok email
    | Sum.inr emails => checkEmailsExist st emails inbound.Id

/-- The record `AddClientStat` fills in before handing it to the store. -/
def newCounter (inboundId : Int) (client : Client) : ClientTraffic :=
  { InboundId := inboundId, Email := client.Email, Total := client.TotalGB,
    ExpiryTime := client.ExpiryTime, Enable := true, Up := 0, Down := 0 }

def AddClientStat (st : Store) (inboundId : Int) (client : Client) : Option Err × Store :=
  createClientTraffic st (newCounter inboundId client)

/-- A run of `AddClientStat` calls whose results are dropped. -/
def addClientStats (st : Store) (inboundId : Int) (clients : List Client) : Store :=
  clients.foldl (fun s client => (AddClientStat s inboundId client).2) st

def DelClientStat (st : Store) (email : String) : Store :=
  { st with clientTraffics := st.clientTraffics.filter (fun r => decide (r.Email ≠ email)) }

def GetInbound (st : Store) (id : Int) : Except Err Inbound :=
  match st.inbounds.find? (fun r => decide (r.Id = id)) with
  | some r => Except.ok r
  | none => Except.error Err.recordNotFound

def AddInbound (st : Store) (inbound : Inbound) : Except Err Inbound × Store :=
  if checkPortExist st inbound.Port 0 then (Except.error (Err.portExists inbound.Port), st)
  else
    match checkEmailExistForInbound st inbound with
    | Except.error e => (Except.error e, st)
    | Except.ok existEmail =>
      if existEmail ≠ "" then (Except.error (Err.duplicateEmail existEmail), st)
      else
        match getClients inbound with
        | Except.error e => (Except.error e, st)
        | Except.ok clients =>
          match Save st inbound with
          | Except.error e => (Except.error e, st)
          | Except.ok (saved, st1) => (Except.ok saved, addClientStats st1 saved.Id clients)

/-- The clients `AddInboundClient` hands to `AddClientStat`, in call order:
the last client of the incoming list, then every client past the old length. -/
def addInboundClientCalls (clients oldClients : List Client) : List Client :=
  (match clients.getLast? with
    | some last => if 0 < last.Email.length then [last] else []
    | none => [])
  ++ (clients.drop oldClients.length).filter (fun client => decide (0 < client.Email.length))

def AddInboundClient (st : Store) (inbound : Inbound) : Option Err × Store :=
  match checkEmailExistForInbound st inbound with
  | Except.error e => (some e, st)
  | Except.ok existEmail =>
    if existEmail ≠ "" then (some (Err.duplicateEmail existEmail), st)
    else
      match getClients inbound with
      | Except.error e => (some e, st)
      | Except.ok clients =>
        match GetInbound st inbound.Id with
        | Except.error e => (some e, st)
        | Except.ok oldInbound =>
          match getClients oldInbound with
          | Except.error e => (some e, st)
          | Except.ok oldClients =>
            if clients.isEmpty then (some Err.indexOutOfRange, st)
            else
              let st1 := addClientStats st inbound.Id (addInboundClientCalls clients oldClients)
              match Save st1 { oldInbound with Settings := inbound.Settings } with
              | Except.error e => (some e, st1)
              | Except.ok (_, st2) => (none, st2)

def DelInboundClient (st : Store) (inbound : Inbound) (email : String) : Option Err × Store :=
  let st1 := DelClientStat st email
  match GetInbound st1 inbound.Id with
  | Except.error e => (some e, st1)
  | Except.ok oldInbound =>
    match Save st1 { oldInbound with Settings := inbound.Settings } with
    | Except.error e => (some e, st1)
    | Except.ok (_, st2) => (none, st2)

/-- One pass of the loop of `AddTraffic`. -/
def addTrafficStep (st : Store) (traffic : Traffic) : Store :=
  if traffic.IsInbound then
    { st with inbounds := st.inbounds.map (fun r =>
        if r.Tag = traffic.Tag then
          { r with Up := r.Up + traffic.Up, Down := r.Down + traffic.Down }
        else r) }
  else st

def AddTraffic (st : Store) (traffics : List Traffic) : Option Err × Store :=
  if traffics.isEmpty then (none, st)
  else (none, traffics.foldl addTrafficStep st)

/-- The refresh loop inside `AddClientTraffic`: quota and expiry of the delta
are overwritten from every embedded client with the delta's email. -/
def refreshTraffic (traffic : ClientTraffic) (clients : List Client) : ClientTraffic :=
  clients.foldl (fun t client =>
    if t.Email = client.Email then { t with ExpiryTime := client.ExpiryTime, Total := client.TotalGB }
    else t) traffic

/-- The embedded clients as `AddClientTraffic` reads them: indexing a nil map
gives no clients, and no error is raised. -/
def settingsClients (inbound : Inbound) : List Client :=
  match unmarshalSettings inbound.Settings with
  | none => []
  | some settings => mapGet settings "clients"

/-- One pass of the loop of `AddClientTraffic`. -/
def addClientTrafficStep (st : Store) (traffic : ClientTraffic) : Store :=
  match st.clientTraffics.find? (fun r => decide (r.Email = traffic.Email)) with
  | none => st
  | some client =>
    match st.inbounds.find? (fun r => decide (r.Id = client.InboundId)) with
    | none => st
    | some inbound =>
      let t := refreshTraffic traffic (settingsClients inbound)
      let hit : ClientTraffic → Bool :=
        fun r => decide (r.InboundId = inbound.Id) && decide (r.Email = traffic.Email)
      if st.clientTraffics.countP hit = 0 then (createClientTraffic st t).2
      else
        { st with clientTraffics := st.clientTraffics.map (fun r =>
            if hit r then
              { r with Enable := true, ExpiryTime := t.ExpiryTime, Total := t.Total,
                       Up := r.Up + t.Up, Down := r.Down + t.Down }
            else r) }

/-- The named result `err` is shadowed inside the loop and so stays nil. -/
def AddClientTraffic (st : Store) (traffics : List ClientTraffic) : Option Err × Store :=
  if traffics.isEmpty then (none, st)
  else (none, traffics.foldl addClientTrafficStep st)

/-- The `WHERE` clause of the sweep. -/
def invalidInbound (now : Int) (r : Inbound) : Bool :=
  ((decide (0 < r.Total) && decide (r.Total ≤ r.Up + r.Down))
    || (decide (0 < r.ExpiryTime) && decide (r.ExpiryTime ≤ now)))
  && r.Enable

/-- The argument `now` is `time.Now().Unix() * 1000`; the result is the affected-row count
and the store after the bulk update. -/
def DisableInvalidInbounds (st : Store) (now : Int) : Nat × Store :=
  (st.inbounds.countP (invalidInbound now),
   { st with inbounds := st.inbounds.map (fun r =>
       if invalidInbound now r then { r with Enable := false } else r) })

/-! ## Vocabulary of the statements -/

/-- Total of a column over the inbound-level deltas that carry a given tag. -/
def tagTotal (col : Traffic → Int) (traffics : List Traffic) (tag : String) : Int :=
  ((traffics.filter (fun t => t.IsInbound && decide (t.Tag = tag))).map col).sum

/-- The document of `r` decodes and one of its clients has email `email`. -/
def listsEmail (r : Inbound) (email : String) : Prop :=
  ∃ clients, getClients r = Except.ok clients ∧ ∃ d ∈ clients, d.Email = email

/-- The rows `checkEmailsExist` reads: a multi-client protocol, and not the
row excluded by a positive `ignoreId`. -/
def scannedFor (ignoreId : Int) (r : Inbound) : Prop :=
  (r.Protocol = VMess ∨ r.Protocol = VLESS ∨ r.Protocol = Trojan)
    ∧ ¬ (0 < ignoreId ∧ r.Id = ignoreId)

/-! ## Sample data -/

/-- The tag of an inbound, derived from its port (`fmt.Sprintf("inbound-%v", port)`). -/
def inboundTag (port : Int) : String := "inbound-" ++ toString port

/-- An enabled vmess inbound with no usage, no quota and no expiry. -/
def sampleInbound (id port : Int) (settings : String) : Inbound :=
  { Id := id, UserId := 1, Up := 0, Down := 0, Total := 0, Remark := "", Enable := true,
    ExpiryTime := 0, Listen := "", Port := port, Protocol := VMess, Settings := settings,
    StreamSettings := "", Tag := inboundTag port, Sniffing := "" }

/-- The text `{"clients":[{"email":"a","totalGB":10,"expiryTime":5}]}`. -/
def docClientA : String :=
  "\x7b\"clients\":[\x7b\"email\":\"a\",\"totalGB\":10,\"expiryTime\":5\x7d]\x7d"

/-- The text `{"clients":[{"email":"a"}]`, cut off before the closing brace. -/
def docTruncated : String := "\x7b\"clients\":[\x7b\"email\":\"a\"\x7d]"

/-- The text `{"port":[]}`. -/
def docPortOnly : String := "\x7b\"port\":[]\x7d"

/-- The text `{"clients":[{"email":""}]}`. -/
def docBlankEmail : String := "\x7b\"clients\":[\x7b\"email\":\"\"\x7d]\x7d"

/-- The text `{"clients":[]}`. -/
def docNoClients : String := "\x7b\"clients\":[]\x7d"

/-- The text `{}`. -/
def docEmptyObject : String := "\x7b\x7d"

/-- The text `{`. -/
def docOpenBrace : String := "\x7b"

def strictSchema : Schema := { uniquePort := true, uniqueTag := true, uniqueEmail := true }

def laxSchema : Schema := { uniquePort := false, uniqueTag := false, uniqueEmail := false }

def emptyStore : Store := { schema := strictSchema, inbounds := [], clientTraffics := [] }

/-- One inbound on port 443 listing client `a`, with its counter row. -/
def oneInboundStore : Store :=
  { schema := strictSchema,
    inbounds := [sampleInbound 1 443 docClientA],
    clientTraffics :=
      [{ InboundId := 1, Enable := true, Email := "a", Up := 0, Down := 0, ExpiryTime := 5, Total := 10 }] }

/-- A store with one enabled inbound at `Total = 1000`, `Up = 600`, `Down = 500`. -/
def overQuotaStore : Store :=
  { schema := strictSchema,
    inbounds := [{ sampleInbound 1 443 docEmptyObject with Total := 1000, Up := 600, Down := 500 }],
    clientTraffics := [] }

/-- One idle inbound tagged `inbound-443`. -/
def idleStore : Store :=
  { schema := strictSchema, inbounds := [sampleInbound 1 443 docEmptyObject], clientTraffics := [] }

def sampleDelta : Traffic := { IsInbound := true, Tag := "inbound-443", Up := 100, Down := 200 }

/-- The counter row of client `a` in the one-inbound store. -/
def counterA : ClientTraffic :=
  { InboundId := 1, Enable := true, Email := "a", Up := 0, Down := 0, ExpiryTime := 5, Total := 10 }

/-- An inbound with an empty client list and no counter rows; the counter
table does not declare emails unique. -/
def appendStore : Store :=
  { schema := laxSchema, inbounds := [sampleInbound 1 443 docNoClients], clientTraffics := [] }

/-- The same store with every uniqueness constraint declared. -/
def appendStoreStrict : Store :=
  { schema := strictSchema, inbounds := [sampleInbound 1 443 docNoClients], clientTraffics := [] }

/-- A delta for the unknown email `zz` and a delta for the known email `a`. -/
def sampleClientDeltas : List ClientTraffic :=
  [{ InboundId := 0, Enable := false, Email := "zz", Up := 7, Down := 9, ExpiryTime := 0, Total := 0 },
   { InboundId := 0, Enable := false, Email := "a", Up := 100, Down := 200, ExpiryTime := 0, Total := 0 }]

/-! ## The scanner never runs out of fuel -/

theorem skipSpace_length (cs : List Char) : (skipSpace cs).length ≤ cs.length := by
  induction cs with
  | nil => simp [skipSpace]
  | cons c cs ih =>
    unfold skipSpace
    split
    · simp only [List.length_cons]; omega
    · exact le_refl _

theorem skipSpace_cons_length (cs rest : List Char) (c : Char)
    (h : skipSpace cs = c :: rest) : rest.length < cs.length := by
  have := skipSpace_length cs
  rw [h, List.length_cons] at this
  omega

theorem spanDigits_length (cs : List Char) : (spanDigits cs).2.length ≤ cs.length := by
  induction cs with
  | nil => simp [spanDigits]
  | cons c cs ih =>
    unfold spanDigits
    split
    · simp only [List.length_cons]; omega
    · exact le_refl _

theorem scanExp_length (lit cs l rest : List Char)
    (h : scanExp lit cs = some (l, rest)) : rest.length ≤ cs.length := by
  unfold scanExp at h
  split at h
  · simp only [Option.some.injEq, Prod.mk.injEq] at h
    rw [← h.2]
  · rename_i c r
    split at h
    · simp only at h
      split at h
      · exact absurd h (by simp)
      · simp only [Option.some.injEq, Prod.mk.injEq] at h
        rw [← h.2]
        refine le_trans (spanDigits_length _) ?_
        split
        · simp
        · split
          · simp only [List.length_cons]
            omega
          · simp
    · simp only [Option.some.injEq, Prod.mk.injEq] at h
      rw [← h.2]

theorem scanFrac_length (lit cs l rest : List Char)
    (h : scanFrac lit cs = some (l, rest)) : rest.length ≤ cs.length := by
  unfold scanFrac at h
  split at h
  · simp only [Option.some.injEq, Prod.mk.injEq] at h
    rw [← h.2]
  · rename_i c r
    split at h
    · simp only at h
      split at h
      · exact absurd h (by simp)
      · have h1 := scanExp_length _ _ _ _ h
        have h2 := spanDigits_length r
        simp only [List.length_cons]
        omega
    · exact scanExp_length _ _ _ _ h

theorem scanInt_length (sign cs l rest : List Char)
    (h : scanInt sign cs = some (l, rest)) : rest.length < cs.length := by
  unfold scanInt at h
  split at h
  · exact absurd h (by simp)
  · rename_i c r
    split at h
    · have := scanFrac_length _ _ _ _ h
      simp only [List.length_cons]; omega
    · split at h
      · simp only at h
        have h1 := scanFrac_length _ _ _ _ h
        have h2 := spanDigits_length r
        simp only [List.length_cons]; omega
      · exact absurd h (by simp)

theorem scanNumber_length (cs l rest : List Char)
    (h : scanNumber cs = some (l, rest)) : rest.length < cs.length := by
  unfold scanNumber at h
  split at h
  · exact absurd h (by simp)
  · rename_i c r
    split at h
    · have := scanInt_length _ _ _ _ h
      simp only [List.length_cons]; omega
    · exact scanInt_length _ _ _ _ h

theorem scanString_length (fuel : Nat) (acc cs : List Char) (s : String) (rest : List Char)
    (h : scanString fuel acc cs = some (s, rest)) : rest.length < cs.length := by
  induction fuel generalizing acc cs with
  | zero => exact absurd h (by simp [scanString])
  | succ n ih =>
    unfold scanString at h
    split at h
    · exact absurd h (by simp)
    · rename_i c r
      split at h
      · simp only [Option.some.injEq, Prod.mk.injEq] at h
        rw [← h.2]; simp
      · split at h
        · split at h
          · exact absurd h (by simp)
          · rename_i e r2
            split at h
            · split at h
              · exact absurd h (by simp)
              · simp only at h
                split at h
                · split at h
                  · split at h
                    · have := ih _ _ h
                      simp only [List.length_drop, List.length_cons] at this ⊢
                      omega
                    · have := ih _ _ h
                      simp only [List.length_drop, List.length_cons] at this ⊢
                      omega
                  · have := ih _ _ h
                    simp only [List.length_drop, List.length_cons] at this ⊢
                    omega
                · have := ih _ _ h
                  simp only [List.length_drop, List.length_cons] at this ⊢
                  omega
            · split at h
              · have := ih _ _ h
                simp only [List.length_cons] at this ⊢
                omega
              · exact absurd h (by simp)
        · split at h
          · exact absurd h (by simp)
          · have := ih _ _ h
            simp only [List.length_cons] at this ⊢
            omega

theorem expectWord_length (p cs r : List Char) (h : expectWord p cs = some r) :
    r.length ≤ cs.length := by
  unfold expectWord at h
  split at h
  · simp only [Option.some.injEq] at h
    rw [← h, List.length_drop]; omega
  · exact absurd h (by simp)

/-- Fuel beyond `length + 1` never changes what the string scanner returns. -/
theorem scanString_fuel_stable (n : Nat) (acc cs : List Char) (k : Nat)
    (hn : cs.length + 1 ≤ n) : scanString (n + k) acc cs = scanString n acc cs := by
  induction n generalizing acc cs with
  | zero => omega
  | succ n ih =>
    rw [show n + 1 + k = (n + k) + 1 by omega]
    unfold scanString
    cases cs with
    | nil => rfl
    | cons c rest =>
      simp only [List.length_cons] at hn
      simp only
      by_cases h1 : c = '"'
      · simp only [if_pos h1]
      · simp only [if_neg h1]
        by_cases h2 : c = '\\'
        · simp only [if_pos h2]
          cases rest with
          | nil => rfl
          | cons e rest2 =>
            simp only [List.length_cons] at hn
            simp only
            by_cases h3 : e = 'u'
            · simp only [if_pos h3]
              cases hg : getu4 (c :: e :: rest2) with
              | none => rfl
              | some rr =>
                simp only
                by_cases h4 : isSurrogate rr = true
                · simp only [if_pos h4]
                  cases hg2 : getu4 (List.drop 4 rest2) with
                  | none =>
                    simp only
                    exact ih _ _ (by simp only [List.length_drop]; omega)
                  | some rr1 =>
                    simp only
                    by_cases h5 : rr < 0xdc00 ∧ 0xdc00 ≤ rr1 ∧ rr1 < 0xe000
                    · simp only [if_pos h5]
                      exact ih _ _ (by simp only [List.length_drop]; omega)
                    · simp only [if_neg h5]
                      exact ih _ _ (by simp only [List.length_drop]; omega)
                · simp only [if_neg h4]
                  exact ih _ _ (by simp only [List.length_drop]; omega)
            · simp only [if_neg h3]
              cases hse : simpleEscape e with
              | none => rfl
              | some ch =>
                simp only
                exact ih _ _ (by omega)
        · simp only [if_neg h2]
          by_cases h6 : c.toNat < 32
          · simp only [if_pos h6]
          · simp only [if_neg h6]
            exact ih _ _ (by omega)

/-- Whatever the scanner accepts, it has read at least one character of. -/
theorem parse_consumes (n : Nat) :
    (∀ d cs v rest, parseValue n d cs = some (v, rest) → rest.length < cs.length)
    ∧ (∀ d cs acc v rest, parseElems n d cs acc = some (v, rest) → rest.length < cs.length)
    ∧ (∀ d cs acc v rest, parseMembers n d cs acc = some (v, rest) → rest.length < cs.length) := by
  induction n with
  | zero =>
    refine ⟨?_, ?_, ?_⟩
    · intro d cs v rest h
      rw [parseValue] at h
      exact absurd h (by simp)
    · intro d cs acc v rest h
      rw [parseElems] at h
      exact absurd h (by simp)
    · intro d cs acc v rest h
      rw [parseMembers] at h
      exact absurd h (by simp)
  | succ n ih =>
    obtain ⟨ihV, ihE, ihM⟩ := ih
    refine ⟨?_, ?_, ?_⟩
    · intro d cs v rest h
      rw [parseValue] at h
      cases hs : skipSpace cs with
      | nil =>
        rw [hs] at h
        exact absurd h (by simp)
      | cons c r =>
        rw [hs] at h
        simp only at h
        have hr := skipSpace_cons_length cs r c hs
        split at h
        · split at h
          · exact absurd h (by simp)
          · cases hs2 : skipSpace r with
            | nil =>
              rw [hs2] at h
              exact absurd h (by simp)
            | cons d2 r2 =>
              rw [hs2] at h
              simp only at h
              have hr2 := skipSpace_cons_length r r2 d2 hs2
              split at h
              · simp only [Option.some.injEq, Prod.mk.injEq] at h
                rw [← h.2]
                omega
              · have := ihM _ _ _ _ _ h
                simp only [List.length_cons] at this
                omega
        · split at h
          · split at h
            · exact absurd h (by simp)
            · cases hs2 : skipSpace r with
              | nil =>
                rw [hs2] at h
                exact absurd h (by simp)
              | cons d2 r2 =>
                rw [hs2] at h
                simp only at h
                have hr2 := skipSpace_cons_length r r2 d2 hs2
                split at h
                · simp only [Option.some.injEq, Prod.mk.injEq] at h
                  rw [← h.2]
                  omega
                · have := ihE _ _ _ _ _ h
                  simp only [List.length_cons] at this
                  omega
          · split at h
            · cases hss : scanString (r.length + 1) [] r with
              | none =>
                rw [hss] at h
                exact absurd h (by simp)
              | some p =>
                obtain ⟨s, r2⟩ := p
                rw [hss] at h
                simp only [Option.some.injEq, Prod.mk.injEq] at h
                have := scanString_length _ _ _ _ _ hss
                rw [← h.2]
                omega
            · split at h
              · cases hw : expectWord "rue".toList r with
                | none =>
                  rw [hw] at h
                  exact absurd h (by simp)
                | some r2 =>
                  rw [hw] at h
                  simp only [Option.map_some', Option.some.injEq, Prod.mk.injEq] at h
                  have := expectWord_length _ _ _ hw
                  rw [← h.2]
                  omega
              · split at h
                · cases hw : expectWord "alse".toList r with
                  | none =>
                    rw [hw] at h
                    exact absurd h (by simp)
                  | some r2 =>
                    rw [hw] at h
                    simp only [Option.map_some', Option.some.injEq, Prod.mk.injEq] at h
                    have := expectWord_length _ _ _ hw
                    rw [← h.2]
                    omega
                · split at h
                  · cases hw : expectWord "ull".toList r with
                    | none =>
                      rw [hw] at h
                      exact absurd h (by simp)
                    | some r2 =>
                      rw [hw] at h
                      simp only [Option.map_some', Option.some.injEq, Prod.mk.injEq] at h
                      have := expectWord_length _ _ _ hw
                      rw [← h.2]
                      omega
                  · cases hn : scanNumber (c :: r) with
                    | none =>
                      rw [hn] at h
                      exact absurd h (by simp)
                    | some p =>
                      obtain ⟨lit, r2⟩ := p
                      rw [hn] at h
                      simp only [Option.some.injEq, Prod.mk.injEq] at h
                      have := scanNumber_length _ _ _ hn
                      simp only [List.length_cons] at this
                      rw [← h.2]
                      omega
    · intro d cs acc v rest h
      rw [parseElems] at h
      cases hv : parseValue n d cs with
      | none =>
        rw [hv] at h
        exact absurd h (by simp)
      | some p =>
        obtain ⟨v1, r1⟩ := p
        rw [hv] at h
        simp only at h
        have h1 := ihV _ _ _ _ hv
        cases hs : skipSpace r1 with
        | nil =>
          rw [hs] at h
          exact absurd h (by simp)
        | cons c r2 =>
          rw [hs] at h
          simp only at h
          have h2 := skipSpace_cons_length r1 r2 c hs
          split at h
          · have := ihE _ _ _ _ _ h
            omega
          · split at h
            · simp only [Option.some.injEq, Prod.mk.injEq] at h
              rw [← h.2]
              omega
            · exact absurd h (by simp)
    · intro d cs acc v rest h
      rw [parseMembers] at h
      cases hs : skipSpace cs with
      | nil =>
        rw [hs] at h
        exact absurd h (by simp)
      | cons q r =>
        rw [hs] at h
        simp only at h
        have hr := skipSpace_cons_length cs r q hs
        split at h
        · cases hss : scanString (r.length + 1) [] r with
          | none =>
            rw [hss] at h
            exact absurd h (by simp)
          | some p =>
            obtain ⟨k, r2⟩ := p
            rw [hss] at h
            simp only at h
            have h2 := scanString_length _ _ _ _ _ hss
            cases hs3 : skipSpace r2 with
            | nil =>
              rw [hs3] at h
              exact absurd h (by simp)
            | cons colon r3 =>
              rw [hs3] at h
              simp only at h
              have h3 := skipSpace_cons_length r2 r3 colon hs3
              split at h
              · cases hv : parseValue n d r3 with
                | none =>
                  rw [hv] at h
                  exact absurd h (by simp)
                | some p2 =>
                  obtain ⟨v1, r4⟩ := p2
                  rw [hv] at h
                  simp only at h
                  have h4 := ihV _ _ _ _ hv
                  cases hs5 : skipSpace r4 with
                  | nil =>
                    rw [hs5] at h
                    exact absurd h (by simp)
                  | cons c r5 =>
                    rw [hs5] at h
                    simp only at h
                    have h5 := skipSpace_cons_length r4 r5 c hs5
                    split at h
                    · have := ihM _ _ _ _ _ h
                      omega
                    · split at h
                      · simp only [Option.some.injEq, Prod.mk.injEq] at h
                        rw [← h.2]
                        omega
                      · exact absurd h (by simp)
              · exact absurd h (by simp)
        · exact absurd h (by simp)


/-- More fuel than twice the length of the input (plus one for a value, plus
two for a run of elements or members) never changes the result. -/
theorem parse_fuel_stable (n : Nat) :
    (∀ d cs k, 2 * cs.length + 1 ≤ n → parseValue (n + k) d cs = parseValue n d cs)
    ∧ (∀ d cs acc k, 2 * cs.length + 2 ≤ n →
        parseElems (n + k) d cs acc = parseElems n d cs acc)
    ∧ (∀ d cs acc k, 2 * cs.length + 2 ≤ n →
        parseMembers (n + k) d cs acc = parseMembers n d cs acc) := by
  induction n with
  | zero =>
    refine ⟨?_, ?_, ?_⟩
    · intro d cs k h
      omega
    · intro d cs acc k h
      omega
    · intro d cs acc k h
      omega
  | succ n ih =>
    obtain ⟨ihV, ihE, ihM⟩ := ih
    refine ⟨?_, ?_, ?_⟩
    · intro d cs k hn
      rw [show n + 1 + k = (n + k) + 1 by omega, parseValue, parseValue]
      cases hs : skipSpace cs with
      | nil => rfl
      | cons c r =>
        simp only
        have hr := skipSpace_cons_length cs r c hs
        by_cases h1 : c = '{'
        · simp only [if_pos h1]
          by_cases h2 : maxNestingDepth < d + 1
          · simp only [if_pos h2]
          · simp only [if_neg h2]
            cases hs2 : skipSpace r with
            | nil => rfl
            | cons d2 r2 =>
              simp only
              have hr2 := skipSpace_cons_length r r2 d2 hs2
              by_cases h3 : d2 = '}'
              · simp only [if_pos h3]
              · simp only [if_neg h3]
                exact ihM _ _ _ _ (by simp only [List.length_cons]; omega)
        · simp only [if_neg h1]
          by_cases h1b : c = '['
          · simp only [if_pos h1b]
            by_cases h2 : maxNestingDepth < d + 1
            · simp only [if_pos h2]
            · simp only [if_neg h2]
              cases hs2 : skipSpace r with
              | nil => rfl
              | cons d2 r2 =>
                simp only
                have hr2 := skipSpace_cons_length r r2 d2 hs2
                by_cases h3 : d2 = ']'
                · simp only [if_pos h3]
                · simp only [if_neg h3]
                  exact ihE _ _ _ _ (by simp only [List.length_cons]; omega)
          · simp only [if_neg h1b]
    · intro d cs acc k hn
      rw [show n + 1 + k = (n + k) + 1 by omega, parseElems, parseElems,
        ihV d cs k (by omega)]
      cases hv : parseValue n d cs with
      | none => rfl
      | some p =>
        obtain ⟨v1, r1⟩ := p
        simp only
        have h1 := (parse_consumes n).1 _ _ _ _ hv
        cases hs : skipSpace r1 with
        | nil => rfl
        | cons c r2 =>
          simp only
          have h2 := skipSpace_cons_length r1 r2 c hs
          by_cases h3 : c = ','
          · simp only [if_pos h3]
            exact ihE _ _ _ _ (by omega)
          · simp only [if_neg h3]
    · intro d cs acc k hn
      rw [show n + 1 + k = (n + k) + 1 by omega, parseMembers, parseMembers]
      cases hs : skipSpace cs with
      | nil => rfl
      | cons q r =>
        simp only
        have hr := skipSpace_cons_length cs r q hs
        by_cases h1 : q = '"'
        · simp only [if_pos h1]
          cases hss : scanString (r.length + 1) [] r with
          | none => rfl
          | some p =>
            obtain ⟨key, r2⟩ := p
            simp only
            have h2 := scanString_length _ _ _ _ _ hss
            cases hs3 : skipSpace r2 with
            | nil => rfl
            | cons colon r3 =>
              simp only
              have h3 := skipSpace_cons_length r2 r3 colon hs3
              by_cases h4 : colon = ':'
              · simp only [if_pos h4]
                rw [ihV d r3 k (by omega)]
                cases hv : parseValue n d r3 with
                | none => rfl
                | some p2 =>
                  obtain ⟨v1, r4⟩ := p2
                  simp only
                  have h5 := (parse_consumes n).1 _ _ _ _ hv
                  cases hs5 : skipSpace r4 with
                  | nil => rfl
                  | cons c r5 =>
                    simp only
                    have h6 := skipSpace_cons_length r4 r5 c hs5
                    by_cases h7 : c = ','
                    · simp only [if_pos h7]
                      exact ihM _ _ _ _ (by omega)
                    · simp only [if_neg h7]
              · simp only [if_neg h4]
        · simp only [if_neg h1]

/-- Fuel beyond `2 * length + 1` never changes what the scanner returns. -/
theorem parseValue_fuel (cs : List Char) (depth k : Nat) :
    parseValue (2 * cs.length + 1 + k) depth cs = parseValue (2 * cs.length + 1) depth cs :=
  (parse_fuel_stable (2 * cs.length + 1)).1 depth cs k (le_refl _)

/-! ## Port conflicts -/

theorem checkPortExist_of_mem (st : Store) (A : Inbound) (port : Int)
    (hA : A ∈ st.inbounds) (hport : A.Port = port) : checkPortExist st port 0 = true := by
  unfold checkPortExist
  rw [decide_eq_true_iff, List.countP_pos_iff]
  exact ⟨A, hA, by simp [hport]⟩

/-- C3: when the port of `B` is the port of a stored inbound `A`, `AddInbound`
returns the "Port already exists" error for that port and the store is
unchanged. Nothing is assumed about the document of `B`: the port check comes
first, so the result is the same whatever email validation would have said. -/
theorem AddInbound_port_conflict (st : Store) (A B : Inbound)
    (hA : A ∈ st.inbounds) (hport : B.Port = A.Port) :
    AddInbound st B = (Except.error (Err.portExists B.Port), st) := by
  unfold AddInbound
  rw [checkPortExist_of_mem st A B.Port hA hport.symm]
  rfl

/-- C3 at a stored inbound on port 443 and a new inbound on the same port
whose document is the literal null. -/
theorem AddInbound_port_conflict_witness :
    AddInbound oneInboundStore (sampleInbound 0 443 "null")
      = (Except.error (Err.portExists 443), oneInboundStore) :=
  AddInbound_port_conflict oneInboundStore
    (sampleInbound 1 443 docClientA)
    (sampleInbound 0 443 "null") (by decide) (by decide)

/-! ## The sweep -/

theorem invalidInbound_iff (now : Int) (r : Inbound) :
    invalidInbound now r = true ↔
      (r.Enable = true ∧ ((0 < r.Total ∧ r.Total ≤ r.Up + r.Down)
        ∨ (0 < r.ExpiryTime ∧ r.ExpiryTime ≤ now))) := by
  simp [invalidInbound]
  tauto

theorem invalidInbound_disabled (now : Int) (r : Inbound) :
    invalidInbound now
      (if invalidInbound now r = true then { r with Enable := false } else r) = false := by
  by_cases h : invalidInbound now r = true
  · rw [if_pos h]
    simp [invalidInbound]
  · rw [if_neg h]
    simpa using h

/-- C8: one sweep at time `now` switches off exactly the enabled inbounds that
are over quota (`Total > 0` and `Up + Down >= Total`) or expired
(`ExpiryTime > 0` and `ExpiryTime <= now`), reports how many they are and
touches nothing else; a second sweep at the same `now` reports 0 and leaves
the store as it is; an enabled inbound with `Total = 1000`, `Up = 600`,
`Down = 500` is switched off by the first sweep. -/
theorem DisableInvalidInbounds_idempotent (st : Store) (now : Int) :
    (DisableInvalidInbounds st now).2.inbounds
        = st.inbounds.map (fun r =>
            if r.Enable = true ∧ ((0 < r.Total ∧ r.Total ≤ r.Up + r.Down)
                ∨ (0 < r.ExpiryTime ∧ r.ExpiryTime ≤ now))
            then { r with Enable := false } else r)
    ∧ (DisableInvalidInbounds st now).1
        = (st.inbounds.filter (fun r =>
            decide (r.Enable = true ∧ ((0 < r.Total ∧ r.Total ≤ r.Up + r.Down)
                ∨ (0 < r.ExpiryTime ∧ r.ExpiryTime ≤ now))))).length
    ∧ (DisableInvalidInbounds st now).2.clientTraffics = st.clientTraffics
    ∧ (DisableInvalidInbounds st now).2.schema = st.schema
    ∧ DisableInvalidInbounds (DisableInvalidInbounds st now).2 now
        = (0, (DisableInvalidInbounds st now).2)
    ∧ ∀ r ∈ st.inbounds, r.Enable = true → r.Total = 1000 → r.Up = 600 → r.Down = 500 →
        { r with Enable := false } ∈ (DisableInvalidInbounds st now).2.inbounds := by
  refine ⟨?_, ?_, rfl, rfl, ?_, ?_⟩
  · simp only [DisableInvalidInbounds]
    apply List.map_congr_left
    intro r _
    by_cases h : invalidInbound now r = true
    · rw [if_pos h, if_pos ((invalidInbound_iff now r).1 h)]
    · rw [if_neg h, if_neg (fun h2 => h ((invalidInbound_iff now r).2 h2))]
  · simp only [DisableInvalidInbounds, List.countP_eq_length_filter]
    congr 1
    apply List.filter_congr
    intro r _
    by_cases h : invalidInbound now r = true
    · rw [h, eq_comm, decide_eq_true_iff]
      exact (invalidInbound_iff now r).1 h
    · have h2 := fun h3 => h ((invalidInbound_iff now r).2 h3)
      simp only [Bool.not_eq_true] at h
      rw [h, eq_comm, decide_eq_false_iff_not]
      exact h2
  · simp only [DisableInvalidInbounds, List.countP_map, List.map_map]
    refine Prod.ext ?_ ?_
    · simp only [List.countP_eq_zero, Function.comp]
      intro r _
      simp [invalidInbound_disabled now r]
    · simp only
      congr 1
      apply List.map_congr_left
      intro r _
      simp only [Function.comp]
      rw [invalidInbound_disabled now r]
      simp
  · intro r hr hen htot hup hdown
    simp only [DisableInvalidInbounds, List.mem_map]
    refine ⟨r, hr, ?_⟩
    have h : invalidInbound now r = true := by
      rw [invalidInbound_iff]
      exact ⟨hen, Or.inl (by omega)⟩
    rw [if_pos h]

/-- C8 on the over-quota inbound: the first sweep switches it off. -/
theorem DisableInvalidInbounds_idempotent_witness :
    { sampleInbound 1 443 docEmptyObject with Total := 1000, Up := 600, Down := 500, Enable := false }
      ∈ (DisableInvalidInbounds overQuotaStore 0).2.inbounds :=
  (DisableInvalidInbounds_idempotent overQuotaStore 0).2.2.2.2.2
    { sampleInbound 1 443 docEmptyObject with Total := 1000, Up := 600, Down := 500 }
    (by decide) (by decide) (by decide) (by decide) (by decide)

/-! ## Traffic by tag -/

theorem tagTotal_cons (col : Traffic → Int) (t : Traffic) (ts : List Traffic) (tag : String) :
    tagTotal col (t :: ts) tag
      = (if t.IsInbound = true ∧ t.Tag = tag then col t else 0) + tagTotal col ts tag := by
  unfold tagTotal
  simp only [List.filter_cons]
  by_cases h : t.IsInbound = true ∧ t.Tag = tag
  · have h2 : (t.IsInbound && decide (t.Tag = tag)) = true := by simp [h.1, h.2]
    rw [if_pos h2, if_pos h, List.map_cons, List.sum_cons]
  · have h2 : ¬ (t.IsInbound && decide (t.Tag = tag)) = true := by
      simpa using fun h1 h3 => h ⟨h1, h3⟩
    rw [if_neg h2, if_neg h, zero_add]

theorem foldl_addTrafficStep (traffics : List Traffic) (st : Store) :
    traffics.foldl addTrafficStep st
      = { st with inbounds := st.inbounds.map (fun r =>
            { r with Up := r.Up + tagTotal (fun t => t.Up) traffics r.Tag,
                     Down := r.Down + tagTotal (fun t => t.Down) traffics r.Tag }) } := by
  induction traffics generalizing st with
  | nil =>
    simp only [List.foldl_nil, tagTotal, List.filter_nil, List.map_nil, List.sum_nil, add_zero]
    simp
  | cons t ts ih =>
    rw [List.foldl_cons, ih]
    unfold addTrafficStep
    by_cases hin : t.IsInbound = true
    · simp only [hin, if_true, List.map_map]
      congr 1
      apply List.map_congr_left
      intro r _
      simp only [Function.comp, tagTotal_cons, hin, true_and]
      by_cases htag : r.Tag = t.Tag
      · rw [if_pos htag, if_pos htag.symm, if_pos htag.symm]
        simp only [add_assoc]
      · have htag2 : ¬ t.Tag = r.Tag := fun h => htag h.symm
        rw [if_neg htag, if_neg htag2, if_neg htag2]
        simp only [zero_add]
    · simp only [hin, if_false, Bool.false_eq_true]
      congr 1
      apply List.map_congr_left
      intro r _
      simp only [tagTotal_cons, hin, Bool.false_eq_true, false_and, if_false, zero_add]

/-- C6: `AddTraffic` reports no error; afterwards every inbound has `Up` equal
to its former `Up` plus the sum of `Up` over the deltas of the batch with
`IsInbound = true` and the inbound's tag, likewise `Down`; deltas with
`IsInbound = false` add nothing; no other column, no counter row and nothing
else changes. Applying the delta (tag, up 100, down 200, isInbound true) twice
to an inbound with that tag and `Up = Down = 0` leaves `Up = 200`, `Down = 400`. -/
theorem AddTraffic_accumulates (st : Store) (traffics : List Traffic) :
    (AddTraffic st traffics).1 = none
    ∧ (AddTraffic st traffics).2.inbounds = st.inbounds.map (fun r =>
        { r with
          Up := r.Up + ((traffics.filter (fun t => t.IsInbound && decide (t.Tag = r.Tag))).map
                  (fun t => t.Up)).sum,
          Down := r.Down + ((traffics.filter (fun t => t.IsInbound && decide (t.Tag = r.Tag))).map
                  (fun t => t.Down)).sum })
    ∧ (AddTraffic st traffics).2.clientTraffics = st.clientTraffics
    ∧ (AddTraffic st traffics).2.schema = st.schema
    ∧ ∀ r ∈ st.inbounds, r.Up = 0 → r.Down = 0 →
        { r with Up := 200, Down := 400 }
          ∈ (AddTraffic
              (AddTraffic st [{ IsInbound := true, Tag := r.Tag, Up := 100, Down := 200 }]).2
              [{ IsInbound := true, Tag := r.Tag, Up := 100, Down := 200 }]).2.inbounds := by
  have hfold : (AddTraffic st traffics).2 = traffics.foldl addTrafficStep st := by
    unfold AddTraffic
    cases traffics <;> rfl
  refine ⟨?_, ?_, ?_, ?_, ?_⟩
  · unfold AddTraffic
    split <;> rfl
  · rw [hfold, foldl_addTrafficStep]
    rfl
  · rw [hfold, foldl_addTrafficStep]
  · rw [hfold, foldl_addTrafficStep]
  · intro r hr hup hdown
    simp only [AddTraffic, List.isEmpty_cons, Bool.false_eq_true, if_false, List.foldl_cons,
      List.foldl_nil, addTrafficStep, if_true, List.map_map, List.mem_map]
    refine ⟨r, hr, ?_⟩
    simp [hup, hdown]

/-- C6 on the sample inbound: two reports of (100, 200) leave `Up = 200`, `Down = 400`. -/
theorem AddTraffic_accumulates_witness :
    { sampleInbound 1 443 docEmptyObject with Up := 200, Down := 400 }
      ∈ (AddTraffic (AddTraffic idleStore [sampleDelta]).2 [sampleDelta]).2.inbounds :=
  (AddTraffic_accumulates idleStore []).2.2.2.2 (sampleInbound 1 443 docEmptyObject)
    (by decide) (by decide) (by decide)

/-! ## The client extractor -/

theorem mapGet_absent (m : ClientMap) (key : String) (h : ∀ e ∈ m, e.1 ≠ key) :
    mapGet m key = [] := by
  unfold mapGet
  have hnone : m.reverse.find? (fun e => decide (e.1 = key)) = none := by
    rw [List.find?_eq_none]
    intro e he
    simpa using h e (List.mem_reverse.1 he)
  rw [hnone]

/-- C5, as stated, fails: a document cut off before its closing brace is not
well-formed JSON, and `getClients` returns no clients and no failure for it. -/
theorem getClients_truncated_no_failure :
    (parseJson docTruncated).isNone = true
    ∧ getClients (sampleInbound 1 443 docTruncated) = Except.ok [] := by
  decide

/-- C5, amended: `getClients` fails exactly when the document is the JSON
literal `null` (the decoded container is nil), and then with "setting is
null"; for a text that is not well-formed JSON it returns no clients and no
failure, and so it does for a JSON object with no `clients` member. -/
theorem getClients_fails_iff_null (inbound : Inbound) :
    ((∃ e, getClients inbound = Except.error e) ↔ parseJson inbound.Settings = some Json.null)
    ∧ (∀ e, getClients inbound = Except.error e → e = Err.settingIsNull)
    ∧ (parseJson inbound.Settings = none → getClients inbound = Except.ok [])
    ∧ (∀ kvs, parseJson inbound.Settings = some (Json.obj kvs) →
        (∀ kv ∈ kvs, kv.1 ≠ "clients") → getClients inbound = Except.ok []) := by
  unfold getClients unmarshalSettings
  refine ⟨?_, ?_, ?_, ?_⟩
  · cases hp : parseJson inbound.Settings with
    | none => simp
    | some v => cases v <;> simp
  · intro e
    cases hp : parseJson inbound.Settings with
    | none => simp
    | some v =>
      cases v <;> simp
      exact fun h => h.symm
  · intro hp
    rw [hp]
    rfl
  · intro kvs hp hkeys
    rw [hp]
    simp only
    rw [mapGet_absent]
    intro e he
    obtain ⟨kv, hkv, rfl⟩ := List.mem_map.1 he
    exact hkeys kv hkv

/-- C5, amended, on three documents: the literal null fails, a text that is
not JSON and an object without a `clients` member give no clients. -/
theorem getClients_fails_iff_null_witness :
    getClients (sampleInbound 1 443 "null") = Except.error Err.settingIsNull
    ∧ getClients (sampleInbound 1 443 docOpenBrace) = Except.ok []
    ∧ getClients (sampleInbound 1 443 docPortOnly) = Except.ok [] :=
  ⟨by
    obtain ⟨e, he⟩ := (getClients_fails_iff_null (sampleInbound 1 443 "null")).1.2 (by rfl)
    rw [he, (getClients_fails_iff_null (sampleInbound 1 443 "null")).2.1 e he],
   (getClients_fails_iff_null (sampleInbound 1 443 docOpenBrace)).2.2.1 (by rfl),
   (getClients_fails_iff_null (sampleInbound 1 443 docPortOnly)).2.2.2
     [("port", Json.arr [])] (by rfl) (by decide)⟩

/-! ## Counter rows made by `AddInbound` -/

theorem Save_ok_inv (st st1 : Store) (x y : Inbound)
    (h : Save st x = Except.ok (y, st1)) :
    y = assignKey st.inbounds x
    ∧ conflicts st.schema st.inbounds y = false
    ∧ st1 = { st with inbounds :=
        if st.inbounds.any (fun r => decide (r.Id = y.Id)) = true then
          st.inbounds.map (fun r => if r.Id = y.Id then y else r)
        else st.inbounds ++ [y] } := by
  unfold Save at h
  generalize assignKey st.inbounds x = z at h
  simp only at h
  by_cases hc : conflicts st.schema st.inbounds z = true
  · rw [if_pos hc] at h
    exact absurd h (by simp)
  · rw [if_neg hc] at h
    by_cases ha : st.inbounds.any (fun r => decide (r.Id = z.Id)) = true
    · rw [if_pos ha] at h
      obtain ⟨h1, h2⟩ := Prod.mk.inj (Except.ok.inj h)
      subst h1
      exact ⟨rfl, by simpa using hc, by rw [← h2, if_pos ha]⟩
    · rw [if_neg ha] at h
      obtain ⟨h1, h2⟩ := Prod.mk.inj (Except.ok.inj h)
      subst h1
      exact ⟨rfl, by simpa using hc, by rw [← h2, if_neg ha]⟩

theorem Save_keeps_counters (st st1 : Store) (x y : Inbound)
    (h : Save st x = Except.ok (y, st1)) :
    st1.clientTraffics = st.clientTraffics ∧ st1.schema = st.schema := by
  obtain ⟨_, _, h3⟩ := Save_ok_inv st st1 x y h
  rw [h3]
  exact ⟨rfl, rfl⟩

theorem AddInbound_ok_inv (st st' : Store) (inbound saved : Inbound)
    (h : AddInbound st inbound = (Except.ok saved, st')) :
    ∃ clients st1, getClients inbound = Except.ok clients
      ∧ Save st inbound = Except.ok (saved, st1)
      ∧ st' = addClientStats st1 saved.Id clients := by
  unfold AddInbound at h
  split at h
  · exact absurd (Prod.mk.inj h).1 (by simp)
  · split at h
    · exact absurd (Prod.mk.inj h).1 (by simp)
    · split at h
      · exact absurd (Prod.mk.inj h).1 (by simp)
      · split at h
        · exact absurd (Prod.mk.inj h).1 (by simp)
        · rename_i clients hclients
          split at h
          · exact absurd (Prod.mk.inj h).1 (by simp)
          · rename_i y st1 hsave
            obtain ⟨h1, h2⟩ := Prod.mk.inj h
            have h3 : y = saved := Except.ok.inj h1
            subst h3
            exact ⟨clients, st1, hclients, hsave, h2.symm⟩

theorem addClientStats_fresh (clients : List Client) (st : Store) (id : Int)
    (hnodup : (clients.map (fun c => c.Email)).Nodup)
    (hfresh : ∀ c ∈ clients, ∀ r ∈ st.clientTraffics, r.Email ≠ c.Email) :
    addClientStats st id clients
      = { st with clientTraffics := st.clientTraffics ++ clients.map (newCounter id) } := by
  induction clients generalizing st with
  | nil => simp [addClientStats]
  | cons c cs ih =>
    have hc : st.clientTraffics.any (fun r => decide (r.Email = c.Email)) = false := by
      rw [List.any_eq_false]
      intro r hr
      simpa using hfresh c (List.mem_cons_self c cs) r hr
    have hstep : (AddClientStat st id c).2
        = { st with clientTraffics := st.clientTraffics ++ [newCounter id c] } := by
      have hc2 : st.clientTraffics.any (fun r => decide (r.Email = (newCounter id c).Email))
          = false := hc
      simp [AddClientStat, createClientTraffic, hc2]
    rw [List.map_cons, List.nodup_cons] at hnodup
    have ih2 := ih (AddClientStat st id c).2 hnodup.2 (by
      intro d hd r hr
      rw [hstep] at hr
      simp only [List.mem_append, List.mem_singleton] at hr
      rcases hr with hr | hr
      · exact hfresh d (List.mem_cons_of_mem c hd) r hr
      · rw [hr]
        intro heq
        exact hnodup.1 (List.mem_map.2 ⟨d, hd, heq.symm⟩))
    unfold addClientStats at ih2 ⊢
    rw [List.foldl_cons, ih2, hstep]
    simp

theorem filter_newCounter (id : Int) (clients : List Client) (c : Client)
    (hnodup : (clients.map (fun c => c.Email)).Nodup) (hc : c ∈ clients) :
    (clients.map (newCounter id)).filter (fun r => decide (r.Email = c.Email))
      = [newCounter id c] := by
  induction clients with
  | nil => exact absurd hc (List.not_mem_nil c)
  | cons d ds ih =>
    rw [List.map_cons, List.nodup_cons] at hnodup
    rw [List.map_cons, List.filter_cons]
    have hde : (newCounter id d).Email = d.Email := rfl
    by_cases hdc : d.Email = c.Email
    · have hrest : (ds.map (newCounter id)).filter (fun r => decide (r.Email = c.Email)) = [] := by
        rw [List.filter_eq_nil_iff]
        intro r hr
        obtain ⟨e, he, rfl⟩ := List.mem_map.1 hr
        simp only [decide_eq_true_eq]
        intro hec
        exact hnodup.1 (List.mem_map.2 ⟨e, he, Eq.trans hec hdc.symm⟩)
      have hd : d = c := by
        rcases List.mem_cons.1 hc with h | h
        · exact h.symm
        · exact absurd (List.mem_map.2 ⟨c, h, hdc.symm⟩) hnodup.1
      rw [hde, if_pos (by simpa using hdc), hrest, hd]
    · have hcds : c ∈ ds := by
        rcases List.mem_cons.1 hc with h | h
        · exact absurd (by rw [h]) hdc
        · exact h
      rw [hde, if_neg (by simpa using hdc)]
      exact ih hnodup.2 hcds

/-- C1: let the document of `inbound` decode to `clients`, with pairwise
distinct emails none of which has a counter row yet. If `AddInbound` succeeds,
returning `saved`, the counter table is the old one followed by one row per
client, and for each client `c` the rows with email `c.Email` are exactly one:
`InboundId = saved.Id`, `Email = c.Email`, `Total = c.TotalGB`,
`ExpiryTime = c.ExpiryTime`, `Up = 0`, `Down = 0`, `Enable = true`. (A free
port, non-empty emails and absence from the stored documents are consequences
of, or not needed beside, the success of the call.) -/
theorem AddInbound_creates_counters (st st' : Store) (inbound saved : Inbound)
    (clients : List Client)
    (hclients : getClients inbound = Except.ok clients)
    (hnodup : (clients.map (fun c => c.Email)).Nodup)
    (hfresh : ∀ c ∈ clients, ∀ r ∈ st.clientTraffics, r.Email ≠ c.Email)
    (hok : AddInbound st inbound = (Except.ok saved, st')) :
    st'.clientTraffics = st.clientTraffics ++ clients.map (fun c =>
        { InboundId := saved.Id, Enable := true, Email := c.Email, Up := 0, Down := 0,
          ExpiryTime := c.ExpiryTime, Total := c.TotalGB })
    ∧ ∀ c ∈ clients, st'.clientTraffics.filter (fun r => decide (r.Email = c.Email))
        = [{ InboundId := saved.Id, Enable := true, Email := c.Email, Up := 0, Down := 0,
             ExpiryTime := c.ExpiryTime, Total := c.TotalGB }] := by
  obtain ⟨clients2, st1, hc2, hsave, hst'⟩ := AddInbound_ok_inv st st' inbound saved hok
  rw [hclients] at hc2
  have hcc : clients = clients2 := Except.ok.inj hc2
  subst hcc
  obtain ⟨hct, _⟩ := Save_keeps_counters st st1 inbound saved hsave
  have htable : st'.clientTraffics
      = st.clientTraffics ++ clients.map (newCounter saved.Id) := by
    rw [hst', addClientStats_fresh clients st1 saved.Id hnodup (by rw [hct]; exact hfresh), hct]
  refine ⟨htable, ?_⟩
  intro c hc
  rw [htable, List.filter_append]
  have hold : st.clientTraffics.filter (fun r => decide (r.Email = c.Email)) = [] := by
    rw [List.filter_eq_nil_iff]
    intro r hr
    simpa using hfresh c hc r hr
  rw [hold, List.nil_append]
  exact filter_newCounter saved.Id clients c hnodup hc

/-- C1 on the empty store and the document listing client `a` (10, 5). -/
theorem AddInbound_creates_counters_witness :
    (AddInbound emptyStore (sampleInbound 0 443 docClientA)).2.clientTraffics
      = [] ++ [({ Email := "a", TotalGB := 10, ExpiryTime := 5 } : Client)].map (fun c =>
        ({ InboundId := 1, Enable := true, Email := c.Email, Up := 0, Down := 0,
           ExpiryTime := c.ExpiryTime, Total := c.TotalGB } : ClientTraffic)) :=
  (AddInbound_creates_counters emptyStore (AddInbound emptyStore (sampleInbound 0 443 docClientA)).2
    (sampleInbound 0 443 docClientA) (sampleInbound 1 443 docClientA)
    [{ Email := "a", TotalGB := 10, ExpiryTime := 5 }]
    (by decide) (by decide) (by decide) (by decide)).1

/-- C10, the code at an input that breaks it: on the empty store, an inbound
whose only client has an empty email is accepted and a counter row with an
empty `Email` is created for that client. -/
theorem AddInbound_blank_email_row :
    getClients (sampleInbound 0 443 docBlankEmail)
      = Except.ok [{ Email := "", TotalGB := 0, ExpiryTime := 0 }]
    ∧ AddInbound emptyStore (sampleInbound 0 443 docBlankEmail)
      = (Except.ok (sampleInbound 1 443 docBlankEmail),
         { schema := strictSchema,
           inbounds := [sampleInbound 1 443 docBlankEmail],
           clientTraffics := [{ InboundId := 1, Enable := true, Email := "", Up := 0, Down := 0,
                                ExpiryTime := 0, Total := 0 }] }) := by
  decide

/-! ## Removing a client -/

theorem GetInbound_ok_inv (st : Store) (id : Int) (r : Inbound)
    (h : GetInbound st id = Except.ok r) : r ∈ st.inbounds ∧ r.Id = id := by
  unfold GetInbound at h
  cases hf : st.inbounds.find? (fun r => decide (r.Id = id)) with
  | none =>
    rw [hf] at h
    exact absurd h (by simp)
  | some x =>
    rw [hf] at h
    have hx : x = r := Except.ok.inj h
    subst hx
    exact ⟨List.mem_of_find?_eq_some hf, by simpa using List.find?_some hf⟩

theorem find?_replace (rows : List Inbound) (y : Inbound)
    (h : ∃ r ∈ rows, r.Id = y.Id) :
    (rows.map (fun r => if r.Id = y.Id then y else r)).find? (fun r => decide (r.Id = y.Id))
      = some y := by
  induction rows with
  | nil =>
    obtain ⟨r, hr, _⟩ := h
    exact absurd hr (List.not_mem_nil r)
  | cons a rest ih =>
    rw [List.map_cons, List.find?_cons]
    by_cases ha : a.Id = y.Id
    · simp [ha]
    · have hrest : ∃ r ∈ rest, r.Id = y.Id := by
        obtain ⟨r, hr, hry⟩ := h
        rcases List.mem_cons.1 hr with h1 | h1
        · exact absurd (h1 ▸ hry) ha
        · exact ⟨r, h1, hry⟩
      simp only [ha, if_false, decide_False]
      exact ih hrest

/-- Rewriting a stored row under its own non-zero key: the row is found again
under that key, as written. -/
theorem Save_then_GetInbound (st st1 : Store) (x y : Inbound)
    (hid : x.Id ≠ 0) (hmem : ∃ r ∈ st.inbounds, r.Id = x.Id)
    (h : Save st x = Except.ok (y, st1)) :
    y = x ∧ GetInbound st1 x.Id = Except.ok x := by
  obtain ⟨hy, _, hst1⟩ := Save_ok_inv st st1 x y h
  have hyx : y = x := by
    rw [hy]
    unfold assignKey
    rw [if_neg hid]
  subst hyx
  refine ⟨rfl, ?_⟩
  have hany : st.inbounds.any (fun r => decide (r.Id = y.Id)) = true := by
    rw [List.any_eq_true]
    obtain ⟨r, hr, hry⟩ := hmem
    exact ⟨r, hr, by simpa using hry⟩
  rw [if_pos hany] at hst1
  unfold GetInbound
  rw [hst1]
  simp only
  rw [find?_replace st.inbounds y hmem]

/-- C9, as stated, fails: the stored document becomes whatever document the
argument carries. Deleting client `a` with an argument whose document still
lists `a` succeeds, and the stored document lists `a` afterwards. -/
theorem DelInboundClient_document_still_lists :
    (DelInboundClient oneInboundStore (sampleInbound 1 443 docClientA) "a").1 = none
    ∧ GetInbound (DelInboundClient oneInboundStore (sampleInbound 1 443 docClientA) "a").2 1
        = Except.ok (sampleInbound 1 443 docClientA)
    ∧ getClients (sampleInbound 1 443 docClientA)
        = Except.ok [{ Email := "a", TotalGB := 10, ExpiryTime := 5 }] := by
  decide

/-- The counter table after `DelInboundClient`, whether or not the call
succeeds: the deletion is the first statement and nothing later touches the
counter table. -/
theorem DelInboundClient_counters (st : Store) (inbound : Inbound) (email : String) :
    (DelInboundClient st inbound email).2.clientTraffics
      = st.clientTraffics.filter (fun r => decide (r.Email ≠ email)) := by
  unfold DelInboundClient
  simp only
  cases hget : GetInbound (DelClientStat st email) inbound.Id with
  | error e => rfl
  | ok old =>
    simp only
    cases hsave : Save (DelClientStat st email) { old with Settings := inbound.Settings } with
    | error e => rfl
    | ok res =>
      obtain ⟨y, st2⟩ := res
      simp only
      rw [(Save_keeps_counters _ _ _ _ hsave).1]
      rfl

theorem getClients_of_settings (a b : Inbound) (h : a.Settings = b.Settings) :
    getClients a = getClients b := by
  unfold getClients
  rw [h]

/-- C9, amended: for every store, argument and email, after
`DelInboundClient st inbound email` (successful or not) the counter table is
the old one without the rows of that email, so no counter row has that email.
If moreover the call succeeds and the argument's `Id` is not zero, the inbound
stored under `inbound.Id` carries the argument's document, so the client list
extracted from it is the one extracted from the argument's document: the
stored document lists the email exactly when the argument's document does. -/
theorem DelInboundClient_removes (st : Store) (inbound : Inbound) (email : String) :
    (DelInboundClient st inbound email).2.clientTraffics
        = st.clientTraffics.filter (fun r => decide (r.Email ≠ email))
    ∧ (∀ r ∈ (DelInboundClient st inbound email).2.clientTraffics, r.Email ≠ email)
    ∧ (inbound.Id ≠ 0 → (DelInboundClient st inbound email).1 = none →
        ∃ stored,
          GetInbound (DelInboundClient st inbound email).2 inbound.Id = Except.ok stored
          ∧ stored.Settings = inbound.Settings
          ∧ getClients stored = getClients inbound
          ∧ (listsEmail stored email ↔ listsEmail inbound email)) := by
  refine ⟨DelInboundClient_counters st inbound email, ?_, ?_⟩
  · intro r hr
    rw [DelInboundClient_counters] at hr
    simp only [List.mem_filter, decide_eq_true_eq] at hr
    exact hr.2
  · intro hid hok
    unfold DelInboundClient at hok ⊢
    simp only at hok ⊢
    cases hget : GetInbound (DelClientStat st email) inbound.Id with
    | error e =>
      rw [hget] at hok
      exact absurd hok (by simp)
    | ok old =>
      rw [hget] at hok
      simp only at hok ⊢
      obtain ⟨hmem, hoid⟩ := GetInbound_ok_inv _ _ _ hget
      cases hsave : Save (DelClientStat st email) { old with Settings := inbound.Settings } with
      | error e =>
        rw [hsave] at hok
        exact absurd hok (by simp)
      | ok res =>
        obtain ⟨y, st2⟩ := res
        simp only
        have hfound := (Save_then_GetInbound (DelClientStat st email) st2
          { old with Settings := inbound.Settings } y (by simpa [hoid] using hid)
          ⟨old, hmem, rfl⟩ hsave).2
        have hcl : getClients { old with Settings := inbound.Settings } = getClients inbound :=
          getClients_of_settings _ _ rfl
        refine ⟨{ old with Settings := inbound.Settings }, ?_, rfl, hcl, ?_⟩
        · simpa [hoid] using hfound
        · unfold listsEmail
          rw [hcl]

/-- C9, amended, on the one-inbound store: deleting `a` with the emptied
document succeeds; the counter row of `a` is gone and the inbound stored
under key 1 carries the emptied document. -/
theorem DelInboundClient_removes_witness :
    counterA ∉
      (DelInboundClient oneInboundStore (sampleInbound 1 443 docEmptyObject) "a").2.clientTraffics
    ∧ ∃ stored,
        GetInbound (DelInboundClient oneInboundStore (sampleInbound 1 443 docEmptyObject) "a").2 1
          = Except.ok stored
        ∧ stored.Settings = docEmptyObject :=
  ⟨fun hmem =>
    (DelInboundClient_removes oneInboundStore (sampleInbound 1 443 docEmptyObject) "a").2.1
      counterA hmem rfl,
   (((DelInboundClient_removes oneInboundStore (sampleInbound 1 443 docEmptyObject) "a").2.2
      (by decide) (by decide)).imp fun _ h => ⟨h.1, h.2.1⟩)⟩

/-! ## Appending a client -/

/-- For a list that is the old one followed by appended clients with
non-empty emails, the calls are: the last client, then every appended client
(the last one again among them). -/
theorem addInboundClientCalls_append (old appended : List Client) (last : Client)
    (hlast : appended.getLast? = some last)
    (hne : ∀ c ∈ appended, c.Email ≠ "") :
    addInboundClientCalls (old ++ appended) old = last :: appended := by
  have hpos : ∀ c ∈ appended, 0 < c.Email.length := by
    intro c hc
    rcases Nat.eq_zero_or_pos c.Email.length with h | h
    · exact absurd (String.ext (List.length_eq_zero.1 h)) (hne c hc)
    · exact h
  have happ : appended ≠ [] := by
    intro h
    rw [h] at hlast
    exact absurd hlast (by simp)
  have hl : (old ++ appended).getLast? = some last := by
    rw [List.getLast?_append_of_ne_nil old happ, hlast]
  have hmem : last ∈ appended := List.mem_of_getLast?_eq_some hlast
  unfold addInboundClientCalls
  rw [hl]
  simp only [hpos last hmem, if_true, List.drop_left, List.singleton_append, List.cons.injEq,
    true_and]
  rw [List.filter_eq_self]
  intro c hc
  simpa using hpos c hc

/-- C4, the code at an input that breaks it: the stored list is empty and the
incoming list appends the single client `a`. `AddClientStat` is called twice
for `a` (once as the last client, once as an appended client). Where emails
are not declared unique the counter table ends with two rows for `a`; where
they are, the second creation is refused by the store and its error dropped. -/
theorem AddInboundClient_last_created_twice :
    getClients (sampleInbound 1 443 docNoClients) = Except.ok []
    ∧ getClients (sampleInbound 1 443 docClientA)
        = Except.ok [{ Email := "a", TotalGB := 10, ExpiryTime := 5 }]
    ∧ addInboundClientCalls [{ Email := "a", TotalGB := 10, ExpiryTime := 5 }] []
        = [{ Email := "a", TotalGB := 10, ExpiryTime := 5 },
           { Email := "a", TotalGB := 10, ExpiryTime := 5 }]
    ∧ AddInboundClient appendStore (sampleInbound 1 443 docClientA)
        = (none,
           { schema := laxSchema,
             inbounds := [sampleInbound 1 443 docClientA],
             clientTraffics :=
               [{ InboundId := 1, Enable := true, Email := "a", Up := 0, Down := 0,
                  ExpiryTime := 5, Total := 10 },
                { InboundId := 1, Enable := true, Email := "a", Up := 0, Down := 0,
                  ExpiryTime := 5, Total := 10 }] })
    ∧ AddInboundClient appendStoreStrict (sampleInbound 1 443 docClientA)
        = (none,
           { schema := strictSchema,
             inbounds := [sampleInbound 1 443 docClientA],
             clientTraffics :=
               [{ InboundId := 1, Enable := true, Email := "a", Up := 0, Down := 0,
                  ExpiryTime := 5, Total := 10 }] })
    ∧ (AddClientStat
          (AddClientStat appendStoreStrict 1 { Email := "a", TotalGB := 10, ExpiryTime := 5 }).2 1
          { Email := "a", TotalGB := 10, ExpiryTime := 5 }).1 = some Err.constraintFailed := by
  decide

/-! ## Traffic by client -/

theorem refreshTraffic_keeps (clients : List Client) (t : ClientTraffic) :
    (refreshTraffic t clients).Email = t.Email
    ∧ (refreshTraffic t clients).Up = t.Up
    ∧ (refreshTraffic t clients).Down = t.Down := by
  unfold refreshTraffic
  induction clients generalizing t with
  | nil => exact ⟨rfl, rfl, rfl⟩
  | cons c cs ih =>
    rw [List.foldl_cons]
    by_cases h : t.Email = c.Email
    · rw [if_pos h]
      exact ih _
    · rw [if_neg h]
      exact ih t

theorem addClientTrafficStep_unknown (st : Store) (t : ClientTraffic)
    (h : ∀ r ∈ st.clientTraffics, r.Email ≠ t.Email) : addClientTrafficStep st t = st := by
  unfold addClientTrafficStep
  have hnone : st.clientTraffics.find? (fun r => decide (r.Email = t.Email)) = none := by
    rw [List.find?_eq_none]
    intro r hr
    simpa using h r hr
  rw [hnone]

/-- A delta whose counter row and owning inbound exist is applied as an
update: the creation fallback is not reached. -/
theorem addClientTrafficStep_known (st : Store) (t row : ClientTraffic) (inbound : Inbound)
    (hrow : st.clientTraffics.find? (fun r => decide (r.Email = t.Email)) = some row)
    (hin : st.inbounds.find? (fun r => decide (r.Id = row.InboundId)) = some inbound) :
    addClientTrafficStep st t
      = { st with clientTraffics := st.clientTraffics.map (fun r =>
            if r.InboundId = row.InboundId ∧ r.Email = t.Email then
              { r with Enable := true,
                       ExpiryTime := (refreshTraffic t (settingsClients inbound)).ExpiryTime,
                       Total := (refreshTraffic t (settingsClients inbound)).Total,
                       Up := r.Up + t.Up, Down := r.Down + t.Down }
            else r) } := by
  have hid : inbound.Id = row.InboundId := by simpa using List.find?_some hin
  have hemail : row.Email = t.Email := by simpa using List.find?_some hrow
  have hmem : row ∈ st.clientTraffics := List.mem_of_find?_eq_some hrow
  obtain ⟨_, hup, hdown⟩ := refreshTraffic_keeps (settingsClients inbound) t
  unfold addClientTrafficStep
  rw [hrow]
  simp only
  rw [hin]
  simp only
  have hcount : ¬ st.clientTraffics.countP
      (fun r => decide (r.InboundId = inbound.Id) && decide (r.Email = t.Email)) = 0 := by
    rw [List.countP_eq_zero]
    intro hall
    exact hall row hmem (by simp [hid, hemail])
  rw [if_neg hcount, hup, hdown, hid]
  congr 1
  apply List.map_congr_left
  intro r _
  by_cases hr : r.InboundId = row.InboundId ∧ r.Email = t.Email
  · rw [if_pos hr, if_pos (by simp [hr.1, hr.2])]
  · rw [if_neg hr, if_neg (by simpa using fun h1 h2 => hr ⟨h1, h2⟩)]

theorem addClientTrafficStep_emails (st : Store) (t : ClientTraffic) :
    (addClientTrafficStep st t).clientTraffics.map (fun r => r.Email)
      = st.clientTraffics.map (fun r => r.Email) := by
  cases hrow : st.clientTraffics.find? (fun r => decide (r.Email = t.Email)) with
  | none =>
    have h : addClientTrafficStep st t = st := by
      unfold addClientTrafficStep
      rw [hrow]
    rw [h]
  | some row =>
    cases hin : st.inbounds.find? (fun r => decide (r.Id = row.InboundId)) with
    | none =>
      have h : addClientTrafficStep st t = st := by
        unfold addClientTrafficStep
        rw [hrow]
        simp only
        rw [hin]
      rw [h]
    | some inbound =>
      rw [addClientTrafficStep_known st t row inbound hrow hin]
      simp only [List.map_map]
      apply List.map_congr_left
      intro r _
      simp only [Function.comp]
      split <;> rfl

theorem any_email_map (xs : List ClientTraffic) (email : String) :
    xs.any (fun r => decide (r.Email = email))
      = (xs.map (fun r => r.Email)).any (fun e => decide (e = email)) := by
  induction xs with
  | nil => rfl
  | cons x rest ih => rw [List.any_cons, List.map_cons, List.any_cons, ih]

theorem any_email_of_map_eq (xs ys : List ClientTraffic) (email : String)
    (h : xs.map (fun r => r.Email) = ys.map (fun r => r.Email)) :
    xs.any (fun r => decide (r.Email = email)) = ys.any (fun r => decide (r.Email = email)) := by
  rw [any_email_map xs, any_email_map ys, h]

theorem foldl_addClientTrafficStep_filter (traffics : List ClientTraffic) (st st0 : Store)
    (h : st.clientTraffics.map (fun r => r.Email) = st0.clientTraffics.map (fun r => r.Email)) :
    traffics.foldl addClientTrafficStep st
      = (traffics.filter (fun t =>
          st0.clientTraffics.any (fun r => decide (r.Email = t.Email)))).foldl
            addClientTrafficStep st := by
  induction traffics generalizing st with
  | nil => rfl
  | cons t ts ih =>
    rw [List.foldl_cons, List.filter_cons]
    by_cases hk : st0.clientTraffics.any (fun r => decide (r.Email = t.Email)) = true
    · rw [if_pos hk, List.foldl_cons]
      exact ih _ ((addClientTrafficStep_emails st t).trans h)
    · rw [if_neg hk]
      have hunk : ∀ r ∈ st.clientTraffics, r.Email ≠ t.Email := by
        intro r hr heq
        apply hk
        rw [← any_email_of_map_eq st.clientTraffics st0.clientTraffics t.Email h,
          List.any_eq_true]
        exact ⟨r, hr, by simpa using heq⟩
      rw [addClientTrafficStep_unknown st t hunk]
      exact ih st h

theorem AddClientTraffic_eq_foldl (st : Store) (traffics : List ClientTraffic) :
    AddClientTraffic st traffics = (none, traffics.foldl addClientTrafficStep st) := by
  unfold AddClientTraffic
  cases traffics <;> rfl

/-- C7: `AddClientTraffic` returns no error; a delta whose email has no
counter row changes nothing; a delta whose counter row and owning inbound
exist adds its `Up` and `Down` to the rows of that inbound with that email
(refreshing their quota, expiry and enabled flag) and changes nothing else;
deltas are applied one after the other; and the result of a batch is the
result of the same batch with the unknown-email deltas removed. -/
theorem AddClientTraffic_skips_unknown (st : Store) (traffics : List ClientTraffic) :
    (AddClientTraffic st traffics).1 = none
    ∧ AddClientTraffic st traffics
        = AddClientTraffic st (traffics.filter (fun t =>
            st.clientTraffics.any (fun r => decide (r.Email = t.Email))))
    ∧ (∀ t ts, AddClientTraffic st (t :: ts) = AddClientTraffic (AddClientTraffic st [t]).2 ts)
    ∧ (∀ t, (∀ r ∈ st.clientTraffics, r.Email ≠ t.Email) → AddClientTraffic st [t] = (none, st))
    ∧ (∀ t row inbound,
        st.clientTraffics.find? (fun r => decide (r.Email = t.Email)) = some row →
        st.inbounds.find? (fun r => decide (r.Id = row.InboundId)) = some inbound →
        AddClientTraffic st [t]
          = (none,
             { st with clientTraffics := st.clientTraffics.map (fun r =>
                 if r.InboundId = row.InboundId ∧ r.Email = t.Email then
                   { r with Enable := true,
                            ExpiryTime := (refreshTraffic t (settingsClients inbound)).ExpiryTime,
                            Total := (refreshTraffic t (settingsClients inbound)).Total,
                            Up := r.Up + t.Up, Down := r.Down + t.Down }
                 else r) })) := by
  refine ⟨?_, ?_, ?_, ?_, ?_⟩
  · rw [AddClientTraffic_eq_foldl]
  · rw [AddClientTraffic_eq_foldl, AddClientTraffic_eq_foldl,
      ← foldl_addClientTrafficStep_filter traffics st st rfl]
  · intro t ts
    simp only [AddClientTraffic_eq_foldl, List.foldl_cons, List.foldl_nil]
  · intro t h
    rw [AddClientTraffic_eq_foldl, List.foldl_cons, List.foldl_nil,
      addClientTrafficStep_unknown st t h]
  · intro t row inbound hrow hin
    rw [AddClientTraffic_eq_foldl, List.foldl_cons, List.foldl_nil,
      addClientTrafficStep_known st t row inbound hrow hin]

/-- C7 on the one-inbound store: the delta for `zz` alone changes nothing,
and the batch with both deltas adds (100, 200) to the row of `a`. -/
theorem AddClientTraffic_skips_unknown_witness :
    AddClientTraffic oneInboundStore
        [{ InboundId := 0, Enable := false, Email := "zz", Up := 7, Down := 9,
           ExpiryTime := 0, Total := 0 }]
      = (none, oneInboundStore)
    ∧ AddClientTraffic oneInboundStore sampleClientDeltas
      = (none,
         { oneInboundStore with clientTraffics :=
             [{ InboundId := 1, Enable := true, Email := "a", Up := 100, Down := 200,
                ExpiryTime := 5, Total := 10 }] }) :=
  ⟨(AddClientTraffic_skips_unknown oneInboundStore []).2.2.2.1
      { InboundId := 0, Enable := false, Email := "zz", Up := 7, Down := 9,
        ExpiryTime := 0, Total := 0 } (by decide),
   by decide⟩

/-! ## Duplicate emails -/

theorem collectEmails_inl (clients : List Client) (acc : List String) (e : String)
    (h : collectEmails clients acc = Sum.inl e) :
    e ≠ "" ∧ e ∈ clients.map (fun c => c.Email)
      ∧ (e ∈ acc ∨ 2 ≤ (clients.map (fun c => c.Email)).count e) := by
  induction clients generalizing acc with
  | nil => exact absurd h (by simp [collectEmails])
  | cons c cs ih =>
    unfold collectEmails at h
    by_cases hne : c.Email ≠ ""
    · rw [if_pos hne] at h
      by_cases hmem : c.Email ∈ acc
      · rw [if_pos hmem] at h
        have he : c.Email = e := Sum.inl.inj h
        rw [← he]
        exact ⟨hne, by simp, Or.inl hmem⟩
      · rw [if_neg hmem] at h
        obtain ⟨h1, h2, h3⟩ := ih (c.Email :: acc) h
        refine ⟨h1, List.mem_cons_of_mem _ h2, ?_⟩
        rcases h3 with h3 | h3
        · rcases List.mem_cons.1 h3 with h4 | h4
          · right
            have hpos := List.count_pos_iff.2 h2
            rw [List.map_cons, ← h4, List.count_cons_self]
            omega
          · exact Or.inl h4
        · right
          rw [List.map_cons]
          exact le_trans h3 (List.count_le_count_cons _ _ _)
    · rw [if_neg hne] at h
      obtain ⟨h1, h2, h3⟩ := ih acc h
      refine ⟨h1, List.mem_cons_of_mem _ h2, ?_⟩
      rcases h3 with h3 | h3
      · exact Or.inl h3
      · right
        rw [List.map_cons]
        exact le_trans h3 (List.count_le_count_cons _ _ _)

theorem collectEmails_inr (clients : List Client) (acc emails : List String)
    (h : collectEmails clients acc = Sum.inr emails) :
    (∀ e, e ∈ emails ↔ e ∈ acc ∨ (e ≠ "" ∧ e ∈ clients.map (fun c => c.Email)))
    ∧ (∀ e, e ≠ "" → e ∈ acc → e ∉ clients.map (fun c => c.Email))
    ∧ (∀ e, e ≠ "" → (clients.map (fun c => c.Email)).count e ≤ 1) := by
  induction clients generalizing acc with
  | nil =>
    unfold collectEmails at h
    have he : acc = emails := Sum.inr.inj h
    subst he
    simp
  | cons c cs ih =>
    unfold collectEmails at h
    by_cases hne : c.Email ≠ ""
    · rw [if_pos hne] at h
      by_cases hmem : c.Email ∈ acc
      · rw [if_pos hmem] at h
        exact absurd h (by simp)
      · rw [if_neg hmem] at h
        obtain ⟨h1, h2, h3⟩ := ih (c.Email :: acc) h
        refine ⟨?_, ?_, ?_⟩
        · intro e
          rw [h1 e, List.map_cons, List.mem_cons, List.mem_cons]
          constructor
          · rintro ((h4 | h4) | h4)
            · exact Or.inr ⟨h4 ▸ hne, Or.inl h4⟩
            · exact Or.inl h4
            · exact Or.inr ⟨h4.1, Or.inr h4.2⟩
          · rintro (h4 | ⟨h4, h5 | h5⟩)
            · exact Or.inl (Or.inr h4)
            · exact Or.inl (Or.inl h5)
            · exact Or.inr ⟨h4, h5⟩
        · intro e he hacc
          rw [List.map_cons, List.mem_cons]
          rintro (h4 | h4)
          · exact hmem (h4 ▸ hacc)
          · exact h2 e he (List.mem_cons_of_mem _ hacc) h4
        · intro e he
          rw [List.map_cons]
          by_cases hce : c.Email = e
          · rw [hce, List.count_cons_self]
            have hnot := h2 e he (by rw [← hce]; exact List.mem_cons_self _ _)
            rw [List.count_eq_zero_of_not_mem hnot]
          · rw [List.count_cons_of_ne (fun h => hce h.symm)]
            exact h3 e he
    · rw [if_neg hne] at h
      have hce : c.Email = "" := by simpa using hne
      obtain ⟨h1, h2, h3⟩ := ih acc h
      refine ⟨?_, ?_, ?_⟩
      · intro e
        rw [h1 e, List.map_cons, List.mem_cons]
        constructor
        · rintro (h4 | h4)
          · exact Or.inl h4
          · exact Or.inr ⟨h4.1, Or.inr h4.2⟩
        · rintro (h4 | ⟨h4, h5 | h5⟩)
          · exact Or.inl h4
          · exact absurd (h5.trans hce) h4
          · exact Or.inr ⟨h4, h5⟩
      · intro e he hacc
        rw [List.map_cons, List.mem_cons]
        rintro (h4 | h4)
        · exact he (h4.trans hce)
        · exact h2 e he hacc h4
      · intro e he
        rw [List.map_cons, List.count_cons_of_ne (fun h => he (h.trans hce))]
        exact h3 e he

theorem scanEmails_spec (emails : List String) (rows : List Inbound)
    (hdec : ∀ r ∈ rows, ∃ cs, getClients r = Except.ok cs) :
    ∃ e, scanEmails emails rows = Except.ok e
      ∧ ((e ∈ emails ∧ ∃ r ∈ rows, listsEmail r e)
        ∨ (e = "" ∧ ∀ r ∈ rows, ∀ x ∈ emails, ¬ listsEmail r x)) := by
  induction rows with
  | nil => exact ⟨"", rfl, Or.inr ⟨rfl, fun r hr => absurd hr (List.not_mem_nil r)⟩⟩
  | cons r rest ih =>
    obtain ⟨cs, hcs⟩ := hdec r (List.mem_cons_self r rest)
    unfold scanEmails
    rw [hcs]
    simp only
    cases hfind : cs.find? (fun client => decide (client.Email ∈ emails)) with
    | some d =>
      simp only
      refine ⟨d.Email, rfl, Or.inl ⟨by simpa using List.find?_some hfind, r,
        List.mem_cons_self r rest, cs, hcs, d, List.mem_of_find?_eq_some hfind, rfl⟩⟩
    | none =>
      simp only
      obtain ⟨e, he, hspec⟩ := ih (fun x hx => hdec x (List.mem_cons_of_mem r hx))
      refine ⟨e, he, ?_⟩
      rcases hspec with ⟨h1, x, hx, h2⟩ | ⟨h1, h2⟩
      · exact Or.inl ⟨h1, x, List.mem_cons_of_mem r hx, h2⟩
      · right
        refine ⟨h1, ?_⟩
        intro x hx y hy hl
        rcases List.mem_cons.1 hx with h3 | h3
        · subst h3
          obtain ⟨cs2, hcs2, d, hd, hde⟩ := hl
          rw [hcs] at hcs2
          have h4 : cs = cs2 := Except.ok.inj hcs2
          subst h4
          rw [List.find?_eq_none] at hfind
          have := hfind d hd
          simp only [decide_eq_true_eq] at this
          exact this (hde ▸ hy)
        · exact h2 x h3 y hy hl

theorem mem_scanned_rows (st : Store) (ignoreId : Int) (r : Inbound) :
    r ∈ st.inbounds.filter (fun r =>
        (decide (r.Protocol = VMess) || decide (r.Protocol = VLESS) || decide (r.Protocol = Trojan))
          && (!decide (0 < ignoreId) || decide (r.Id ≠ ignoreId)))
      ↔ r ∈ st.inbounds ∧ scannedFor ignoreId r := by
  unfold scannedFor
  simp only [List.mem_filter, Bool.and_eq_true, Bool.or_eq_true, decide_eq_true_eq,
    Bool.not_eq_true', decide_eq_false_iff_not, ne_eq, not_and]
  constructor
  · rintro ⟨h1, h2, h3⟩
    refine ⟨h1, ?_, ?_⟩
    · tauto
    · intro h4
      rcases h3 with h3 | h3
      · exact absurd h4 h3
      · exact h3
  · rintro ⟨h1, h2, h3⟩
    refine ⟨h1, ?_, ?_⟩
    · tauto
    · by_cases h4 : 0 < ignoreId
      · exact Or.inr (h3 h4)
      · exact Or.inl h4

theorem checkPortExist_free (st : Store) (port : Int)
    (h : ∀ r ∈ st.inbounds, r.Port ≠ port) : checkPortExist st port 0 = false := by
  unfold checkPortExist
  rw [decide_eq_false_iff_not, not_lt, Nat.le_zero, List.countP_eq_zero]
  intro r hr
  simpa using h r hr

/-- C2, as stated, fails: the cross-inbound scan leaves out the stored row
whose key is the argument's own positive `Id`. The store holds inbound 1 on
port 443 listing `a`; an inbound with `Id = 1`, the free port 8443 and a
document listing `a` is accepted, and row 1 is overwritten. -/
theorem AddInbound_duplicate_under_own_id :
    getClients (sampleInbound 1 443 docClientA)
      = Except.ok [{ Email := "a", TotalGB := 10, ExpiryTime := 5 }]
    ∧ getClients (sampleInbound 1 8443 docClientA)
      = Except.ok [{ Email := "a", TotalGB := 10, ExpiryTime := 5 }]
    ∧ checkPortExist oneInboundStore 8443 0 = false
    ∧ AddInbound oneInboundStore (sampleInbound 1 8443 docClientA)
      = (Except.ok (sampleInbound 1 8443 docClientA),
         { oneInboundStore with inbounds := [sampleInbound 1 8443 docClientA] }) := by
  decide

/-- C2, amended: let every stored document decode, the port of `inbound` be
free and its document decode to `clients`. If some non-empty email occurs
twice in `clients`, or occurs in `clients` and in the client list of a stored
vmess/vless/trojan inbound other than the one whose key is the argument's own
positive `Id`, then `AddInbound` fails with "Duplicate email" naming an email
that is non-empty and collides in one of these two ways, and the store is
unchanged. -/
theorem AddInbound_duplicate_email (st : Store) (inbound : Inbound) (clients : List Client)
    (hdec : ∀ r ∈ st.inbounds, ∃ cs, getClients r = Except.ok cs)
    (hport : ∀ r ∈ st.inbounds, r.Port ≠ inbound.Port)
    (hclients : getClients inbound = Except.ok clients)
    (hdup : (∃ e, e ≠ "" ∧ 2 ≤ (clients.map (fun c => c.Email)).count e)
      ∨ (∃ e, e ≠ "" ∧ e ∈ clients.map (fun c => c.Email)
          ∧ ∃ r ∈ st.inbounds, scannedFor inbound.Id r ∧ listsEmail r e)) :
    ∃ e, AddInbound st inbound = (Except.error (Err.duplicateEmail e), st)
      ∧ e ≠ ""
      ∧ (2 ≤ (clients.map (fun c => c.Email)).count e
        ∨ (e ∈ clients.map (fun c => c.Email)
            ∧ ∃ r ∈ st.inbounds, scannedFor inbound.Id r ∧ listsEmail r e)) := by
  have hfree := checkPortExist_free st inbound.Port hport
  cases hcol : collectEmails clients [] with
  | inl e =>
    obtain ⟨h1, _, h3⟩ := collectEmails_inl clients [] e hcol
    have hcount : 2 ≤ (clients.map (fun c => c.Email)).count e := by
      rcases h3 with h3 | h3
      · exact absurd h3 (List.not_mem_nil e)
      · exact h3
    refine ⟨e, ?_, h1, Or.inl hcount⟩
    unfold AddInbound checkEmailExistForInbound
    rw [hfree, hclients]
    simp only [Bool.false_eq_true, if_false]
    rw [hcol]
    simp only
    rw [if_pos h1]
  | inr emails =>
    obtain ⟨hset, _, hone⟩ := collectEmails_inr clients [] emails hcol
    have hcross : ∃ e, e ≠ "" ∧ e ∈ clients.map (fun c => c.Email)
        ∧ ∃ r ∈ st.inbounds, scannedFor inbound.Id r ∧ listsEmail r e := by
      rcases hdup with ⟨e, he, h2⟩ | h
      · have := hone e he
        omega
      · exact h
    obtain ⟨x, hx, hxc, r, hr, hrs, hrl⟩ := hcross
    have hxe : x ∈ emails := (hset x).2 (Or.inr ⟨hx, hxc⟩)
    obtain ⟨e, hscan, hspec⟩ := scanEmails_spec emails
      (st.inbounds.filter (fun r =>
        (decide (r.Protocol = VMess) || decide (r.Protocol = VLESS) || decide (r.Protocol = Trojan))
          && (!decide (0 < inbound.Id) || decide (r.Id ≠ inbound.Id))))
      (fun y hy => hdec y ((mem_scanned_rows st inbound.Id y).1 hy).1)
    have hhit : e ∈ emails ∧ ∃ y ∈ st.inbounds, scannedFor inbound.Id y ∧ listsEmail y e := by
      rcases hspec with ⟨h1, y, hy, h2⟩ | ⟨_, h2⟩
      · obtain ⟨hy1, hy2⟩ := (mem_scanned_rows st inbound.Id y).1 hy
        exact ⟨h1, y, hy1, hy2, h2⟩
      · exact absurd hrl (h2 r ((mem_scanned_rows st inbound.Id r).2 ⟨hr, hrs⟩) x hxe)
    obtain ⟨hee, hy⟩ := hhit
    have hen : e ≠ "" ∧ e ∈ clients.map (fun c => c.Email) := by
      rcases (hset e).1 hee with h | h
      · exact absurd h (List.not_mem_nil e)
      · exact h
    refine ⟨e, ?_, hen.1, Or.inr ⟨hen.2, hy⟩⟩
    unfold AddInbound checkEmailExistForInbound
    rw [hfree, hclients]
    simp only [Bool.false_eq_true, if_false]
    rw [hcol]
    simp only
    unfold checkEmailsExist
    rw [hscan]
    simp only
    rw [if_pos hen.1]

/-- C2, amended, on the one-inbound store: a new inbound (`Id = 0`) on the
free port 8443 whose document lists `a` again is refused. -/
theorem AddInbound_duplicate_email_witness :
    AddInbound oneInboundStore (sampleInbound 0 8443 docClientA)
      = (Except.error (Err.duplicateEmail "a"), oneInboundStore) := by
  obtain ⟨e, h1, _, h3⟩ := AddInbound_duplicate_email oneInboundStore
    (sampleInbound 0 8443 docClientA) [{ Email := "a", TotalGB := 10, ExpiryTime := 5 }]
    (by
      intro r hr
      have hr2 : r = sampleInbound 1 443 docClientA := by simpa [oneInboundStore] using hr
      rw [hr2]
      exact ⟨[{ Email := "a", TotalGB := 10, ExpiryTime := 5 }], by decide⟩)
    (by decide) (by decide)
    (Or.inr ⟨"a", by decide, by decide, sampleInbound 1 443 docClientA, by decide,
      ⟨Or.inl rfl, by decide⟩,
      [{ Email := "a", TotalGB := 10, ExpiryTime := 5 }], by decide,
      { Email := "a", TotalGB := 10, ExpiryTime := 5 }, by decide, rfl⟩)
  have he : e = "a" := by
    rcases h3 with h | ⟨h, _⟩
    · have hle := List.count_le_length e
        ([{ Email := "a", TotalGB := 10, ExpiryTime := 5 }].map (fun c : Client => c.Email))
      simp only [List.map_cons, List.map_nil, List.length_singleton] at hle h
      omega
    · simpa using h
  rw [h1, he]

end XUI
